import Mathlib

/-!
Verification of the Amass enumeration Data Manager.

This file gives a shallow embedding of the Data Manager service
(`DataManagerService` in the `amass` package) together with the pieces of
its environment that its behaviour depends on, and proves properties of
the embedded code.

Strings are modelled as `List Char` (`Str`).  Go's byte-indexed string
operations coincide with the character-level ones on the ASCII data the
Data Manager handles.  The record loop in `manageData` canonicalizes each
record's `name`/`data` field before dispatch, as §4.6 of the design
describes; the embedding passes the canonicalized record to each handler.

Collaborators whose code is not part of the analysed sources (the scope
utilities, the string filters, the graph store, the IP-metadata lookup and
the regex extractors) are modelled from the specification; each such
definition carries a doc comment starting with `Modelled from the spec:`.
-/

namespace AmassDM

/-- DNS names, tags, sources and record payloads as character lists. -/
abbrev Str := List Char

/-- ASCII lowercasing of one character, the behaviour of Go's
`strings.ToLower` on the ASCII data handled here. -/
def toLowerChar (c : Char) : Char :=
  if 65 ≤ c.toNat ∧ c.toNat ≤ 90 then Char.ofNat (c.toNat + 32) else c

/-- `strings.ToLower` on ASCII data. -/
def lower (s : Str) : Str := s.map toLowerChar

/-- `removeLastDot` from the Data Manager source: strip exactly one
trailing dot. -/
def removeLastDot : Str → Str
  | [] => []
  | [c] => if c = '.' then [] else [c]
  | c :: d :: rest => c :: removeLastDot (d :: rest)

/-- The canonicalization function of the specification: lowercase, then
strip exactly one trailing dot. -/
def canonicalize (s : Str) : Str := removeLastDot (lower s)

/-- Whether a string ends with two consecutive dots. -/
def endsTwoDots : Str → Bool
  | [c, d] => c == '.' && d == '.'
  | _ :: d :: e :: rest => endsTwoDots (d :: e :: rest)
  | _ => false

/-- Go's `strings.Split` on a single-character separator: `splitOnChar sep s`
always returns at least one (possibly empty) field. -/
def splitOnChar (sep : Char) : Str → List Str
  | [] => [[]]
  | c :: rest =>
    if c = sep then [] :: splitOnChar sep rest
    else
      match splitOnChar sep rest with
      | [] => [[c]]
      | t :: ts => (c :: t) :: ts

/-- The final comma-separated field of a string, as computed by
`insertNS` (`pieces[len(pieces)-1]`). -/
def lastCommaField (data : Str) : Str := (splitOnChar ',' data).getLastD []

/-- `hasSuffix name r` holds when `r` is a suffix of `name`
(Go's `strings.HasSuffix`). -/
def hasSuffix (name r : Str) : Bool := decide (name.drop (name.length - r.length) = r)

/-- Modelled from the spec: `SubdomainToDomain` (amass scope utilities, not
among the analysed sources) returns the longest suffix of `name` that is a
registered root, or the empty string. -/
def SubdomainToDomain (roots : List Str) (name : Str) : Str :=
  roots.foldl (fun acc r => if hasSuffix name r && decide (acc.length < r.length) then r else acc) []

/-- Modelled from the spec: `Config.IsDomainInScope` — a name is in scope
iff `SubdomainToDomain` finds a non-empty owning root. -/
def IsDomainInScope (roots : List Str) (name : Str) : Bool :=
  !(SubdomainToDomain roots name).isEmpty

/-- Modelled from the spec: `Config.WhichDomain` is the same function as
`SubdomainToDomain`. -/
def WhichDomain (roots : List Str) (name : Str) : Str := SubdomainToDomain roots name

/-- Modelled from the spec: `cleanName` used by the source workers —
results are canonicalized before being published. -/
def cleanName (s : Str) : Str := canonicalize s

/- Tokenization used to model the regex extractors of `utils`. -/

/-- Accumulating tokenizer: maximal runs of characters satisfying `p`. -/
def tokenizeAux (p : Char → Bool) : Str → Str → List Str
  | [], acc => if acc.isEmpty then [] else [acc.reverse]
  | c :: rest, acc =>
    if p c then tokenizeAux p rest (c :: acc)
    else if acc.isEmpty then tokenizeAux p rest []
    else acc.reverse :: tokenizeAux p rest []

/-- Maximal runs of characters satisfying `p` within a string. -/
def tokenize (p : Char → Bool) (s : Str) : List Str := tokenizeAux p s []

/-- Characters that may occur in a dotted-quad token. -/
def isIPv4TokenChar (c : Char) : Bool := c.isDigit || c == '.'

/-- Numeric value of a digit string. -/
def digitsVal (l : Str) : Nat := l.foldl (fun a c => a * 10 + (c.toNat - 48)) 0

/-- A valid IPv4 octet: one to three digits with value at most 255. -/
def isOctet (l : Str) : Bool :=
  !l.isEmpty && l.all Char.isDigit && decide (digitsVal l ≤ 255) && decide (l.length ≤ 3)

/-- Dotted-quad shape with octet bounds. -/
def isIPv4 (t : Str) : Bool :=
  match splitOnChar '.' t with
  | [a, b, c, d] => isOctet a && isOctet b && isOctet c && isOctet d
  | _ => false

/-- Modelled from the spec: the IPv4 regex of `utils` (`IPv4RE`) applied via
`FindAllString` — dotted-quad tokens with octet bounds found in free text. -/
def findIPv4 (data : Str) : List Str := (tokenize isIPv4TokenChar data).filter isIPv4

/-- Characters allowed inside a DNS label by the subdomain regex. -/
def isLabelChar (c : Char) : Bool := c.isLower || c.isDigit || c == '-' || c == '_'

/-- Characters that may occur in a DNS-shaped token. -/
def isNameTokenChar (c : Char) : Bool := isLabelChar c || c == '.'

/-- A non-empty label of allowed characters. -/
def isLabel (l : Str) : Bool := !l.isEmpty && l.all isLabelChar

/-- A DNS-shaped token: at least two dot-separated labels, the last one
alphabetic. -/
def isSubdomainShaped (t : Str) : Bool :=
  let parts := splitOnChar '.' t
  decide (2 ≤ parts.length) && parts.all isLabel && (parts.getLastD []).all Char.isLower

/-- Modelled from the spec: `utils.AnySubdomainRegex` applied via
`FindAllString` — DNS-shaped tokens found in free text. -/
def findSubdomains (data : Str) : List Str :=
  (tokenize isNameTokenChar data).filter isSubdomainShaped

/- Data model. -/

/-- One validated DNS record of a `CHECKED` request.  The source calls the
type field `Type` (an IANA DNS type code); Lean reserves that word, so the
embedding names it `Rtype`. -/
structure DNSRec where
  Name : Str
  Rtype : Nat
  Data : Str
deriving DecidableEq

/-- Modelled from the spec: `core.AmassRequest` — the event payload
carrying a name, its owning domain, an optional address, provenance and
validated records. -/
structure AmassRequest where
  Name : Str
  Domain : Str
  Address : Str
  Tag : Str
  Source : Str
  Records : List DNSRec
deriving DecidableEq

/-- The all-empty request, used to build publications that set only some
fields (Go zero-values the rest). -/
def emptyReq : AmassRequest := ⟨[], [], [], [], [], []⟩

/-- Modelled from the spec: one record of `Graph.GetNewOutput` — a Name
together with its provenance. -/
structure OutputRec where
  Name : Str
  Domain : Str
  Tag : Str
  Source : Str
deriving DecidableEq

/-- Bus publications made by the embedded code. -/
inductive Event where
  | newname (req : AmassRequest)
  | newaddr (req : AmassRequest)
  | output (o : OutputRec)
deriving DecidableEq

/-- Modelled from the spec: the graph-handler write operations of §4.2,
identified by their full argument lists. -/
inductive GraphOp where
  | insertDomain (domain tag source : Str)
  | insertCNAME (name domain target tdomain tag source : Str)
  | insertA (name domain addr tag source : Str)
  | insertAAAA (name domain addr tag source : Str)
  | insertPTR (name domain target tag source : Str)
  | insertSRV (name domain service target tag source : Str)
  | insertNS (name domain target tdomain tag source : Str)
  | insertMX (name domain target tdomain tag source : Str)
  | insertInfrastructure (addr : Str) (asn : Nat) (cidr desc : Str)
deriving DecidableEq

/-- The mutable state the Data Manager and its enumeration own: the two
string filters of the service, the enumeration's data-source-duplicate
filter, the graph (a set of write operations: the spec makes every handler
write idempotent on identity, edges being a set), and the append-only
trace of handler calls. -/
structure DMState where
  filter : List Str
  domainFilter : List Str
  dupFilter : List (Str × Str)
  graph : List GraphOp
  calls : List GraphOp
deriving DecidableEq

/-- The state at the start of an enumeration. -/
def initState : DMState := ⟨[], [], [], [], []⟩

/-- The enumeration configuration: the registered root domains and the
IP-metadata lookup (`IPRequest`), modelled as an arbitrary deterministic
partial function. -/
structure Config where
  roots : List Str
  ipReq : Str → Option (Nat × Str × Str)

/-- The tag constant `core.DNS`. -/
def dnsTag : Str := "dns".data

/-- The tag constant `core.SCRAPE`. -/
def scrapeTag : Str := "scrape".data

/-- The source label "Forward DNS" used by the Data Manager. -/
def forwardDNS : Str := "Forward DNS".data

/-- The source label of the PTRArchive source worker. -/
def ptrarchiveLabel : Str := "PTRArchive".data

/- Operations. -/

/-- Modelled from the spec: `utils.StringFilter.Duplicate` — atomic
test-and-add returning the prior membership. -/
def StringFilterDup (filter : List Str) (entry : Str) : Bool × List Str :=
  if entry ∈ filter then (true, filter) else (false, filter ++ [entry])

/-- `checkDomain`: test-and-add on the service's domain filter. -/
def checkDomain (s : DMState) (domain : Str) : Bool × DMState :=
  let p := StringFilterDup s.domainFilter domain
  (p.1, { s with domainFilter := p.2 })

/-- Modelled from the spec: the enumeration's `DupDataSourceName` filter —
the `(name, source)` tuple is checked against a set with test-and-add
semantics. -/
def DupDataSourceName (s : DMState) (req : AmassRequest) : Bool × DMState :=
  if (req.Name, req.Source) ∈ s.dupFilter then (true, s)
  else (false, { s with dupFilter := s.dupFilter ++ [(req.Name, req.Source)] })

/-- One handler write: the graph is a set (later identical writes are
no-ops), and every call is recorded in the call trace. -/
def graphInsert (s : DMState) (op : GraphOp) : DMState :=
  { s with
    graph := if op ∈ s.graph then s.graph else s.graph ++ [op]
    calls := s.calls ++ [op] }

/-- `sendNewName`: publish `NEWNAME` unless the data-source-duplicate
filter already holds the `(name, source)` pair. -/
def sendNewName (s : DMState) (req : AmassRequest) : DMState × List Event :=
  let p := DupDataSourceName s req
  if p.1 then (p.2, []) else (p.2, [Event.newname req])

/-- `insertDomain`: lowercase, drop empty or already-seen domains, write
the Domain node and publish a `NEWNAME` for the domain itself. -/
def insertDomain (s : DMState) (domain : Str) : DMState × List Event :=
  let d := lower domain
  if d = [] then (s, [])
  else
    let p := checkDomain s d
    if p.1 then (p.2, [])
    else
      let s1 := graphInsert p.2 (GraphOp.insertDomain d dnsTag forwardDNS)
      sendNewName s1 { emptyReq with Name := d, Domain := d, Tag := dnsTag, Source := forwardDNS }

/-- `insertInfrastructure`: look up ASN metadata for the address and write
the infrastructure record; lookup failure is logged and dropped. -/
def insertInfrastructure (cfg : Config) (s : DMState) (addr : Str) : DMState :=
  match cfg.ipReq addr with
  | none => s
  | some t => graphInsert s (GraphOp.insertInfrastructure addr t.1 t.2.1 t.2.2)

/-- `insertA`: write the A edge and infrastructure, and publish `NEWADDR`
when the request's name is in scope. -/
def insertA (cfg : Config) (s : DMState) (req : AmassRequest) (r : DNSRec) : DMState × List Event :=
  let addr := r.Data
  if addr = [] then (s, [])
  else
    let s1 := graphInsert s (GraphOp.insertA req.Name req.Domain addr req.Tag req.Source)
    let s2 := insertInfrastructure cfg s1 addr
    if IsDomainInScope cfg.roots req.Name then
      (s2, [Event.newaddr { emptyReq with Domain := req.Domain, Address := addr, Tag := req.Tag, Source := req.Source }])
    else (s2, [])

/-- `insertAAAA`: as `insertA`, with the AAAA edge. -/
def insertAAAA (cfg : Config) (s : DMState) (req : AmassRequest) (r : DNSRec) : DMState × List Event :=
  let addr := r.Data
  if addr = [] then (s, [])
  else
    let s1 := graphInsert s (GraphOp.insertAAAA req.Name req.Domain addr req.Tag req.Source)
    let s2 := insertInfrastructure cfg s1 addr
    if IsDomainInScope cfg.roots req.Name then
      (s2, [Event.newaddr { emptyReq with Domain := req.Domain, Address := addr, Tag := req.Tag, Source := req.Source }])
    else (s2, [])

/-- `insertCNAME`: strip the trailing dot from the target, find its owning
root, write domain and CNAME edge, republish the target. -/
def insertCNAME (cfg : Config) (s : DMState) (req : AmassRequest) (r : DNSRec) : DMState × List Event :=
  let target := removeLastDot r.Data
  if target = [] then (s, [])
  else
    let domain := SubdomainToDomain cfg.roots target
    if domain = [] then (s, [])
    else
      let p := insertDomain s domain
      let s1 := graphInsert p.1 (GraphOp.insertCNAME req.Name req.Domain target domain req.Tag req.Source)
      let q := sendNewName s1 { emptyReq with Name := target, Domain := domain, Tag := dnsTag, Source := forwardDNS }
      (q.1, p.2 ++ q.2)

/-- `insertPTR`: the target's owning domain comes from `WhichDomain`; the
republished request keeps the incoming request's source. -/
def insertPTR (cfg : Config) (s : DMState) (req : AmassRequest) (r : DNSRec) : DMState × List Event :=
  let target := removeLastDot r.Data
  if target = [] then (s, [])
  else
    let domain := WhichDomain cfg.roots target
    if domain = [] then (s, [])
    else
      let p := insertDomain s domain
      let s1 := graphInsert p.1 (GraphOp.insertPTR req.Name domain target req.Tag req.Source)
      let q := sendNewName s1 { emptyReq with Name := target, Domain := domain, Tag := dnsTag, Source := req.Source }
      (q.1, p.2 ++ q.2)

/-- `insertSRV`: the record's name (trailing dot stripped) is the service
label, its data the target; no republish. -/
def insertSRV (s : DMState) (req : AmassRequest) (r : DNSRec) : DMState × List Event :=
  let service := removeLastDot r.Name
  let target := removeLastDot r.Data
  if target = [] ∨ service = [] then (s, [])
  else
    (graphInsert s (GraphOp.insertSRV req.Name req.Domain service target req.Tag req.Source), [])

/-- `insertNS`: the target is the final comma-separated field of the data;
republish only when the target differs from its owning root. -/
def insertNS (cfg : Config) (s : DMState) (req : AmassRequest) (r : DNSRec) : DMState × List Event :=
  let target := lastCommaField r.Data
  if target = [] then (s, [])
  else
    let domain := SubdomainToDomain cfg.roots target
    if domain = [] then (s, [])
    else
      let p := insertDomain s domain
      let s1 := graphInsert p.1 (GraphOp.insertNS req.Name req.Domain target domain req.Tag req.Source)
      if target ≠ domain then
        let q := sendNewName s1 { emptyReq with Name := target, Domain := domain, Tag := dnsTag, Source := forwardDNS }
        (q.1, p.2 ++ q.2)
      else (s1, p.2)

/-- `insertMX`: like NS, with the target the trailing-dot-stripped data. -/
def insertMX (cfg : Config) (s : DMState) (req : AmassRequest) (r : DNSRec) : DMState × List Event :=
  let target := removeLastDot r.Data
  if target = [] then (s, [])
  else
    let domain := SubdomainToDomain cfg.roots target
    if domain = [] then (s, [])
    else
      let p := insertDomain s domain
      let s1 := graphInsert p.1 (GraphOp.insertMX req.Name req.Domain target domain req.Tag req.Source)
      if target ≠ domain then
        let q := sendNewName s1 { emptyReq with Name := target, Domain := domain, Tag := dnsTag, Source := forwardDNS }
        (q.1, p.2 ++ q.2)
      else (s1, p.2)

/-- The name loop of `findNamesAndAddresses`: republish each in-scope
DNS-shaped token that has an owning root. -/
def sendNames (cfg : Config) (s : DMState) : List Str → DMState × List Event
  | [] => (s, [])
  | nm :: rest =>
    if IsDomainInScope cfg.roots nm then
      let domain := WhichDomain cfg.roots nm
      if domain = [] then sendNames cfg s rest
      else
        let p := sendNewName s { emptyReq with Name := nm, Domain := domain, Tag := dnsTag, Source := forwardDNS }
        let q := sendNames cfg p.1 rest
        (q.1, p.2 ++ q.2)
    else sendNames cfg s rest

/-- The `NEWADDR` publications of `findNamesAndAddresses` for the IPv4
matches in `data`. -/
def ipEvents (data : Str) : List Event :=
  (findIPv4 data).map (fun ip =>
    Event.newaddr { emptyReq with Address := ip, Tag := dnsTag, Source := forwardDNS })

/-- `findNamesAndAddresses`: publish a `NEWADDR` for every IPv4 match and
republish every in-scope DNS-shaped match. -/
def findNamesAndAddresses (cfg : Config) (s : DMState) (data : Str) : DMState × List Event :=
  let p := sendNames cfg s (findSubdomains data)
  (p.1, ipEvents data ++ p.2)

/-- `insertTXT`: only in-scope requests have their text payload mined. -/
def insertTXT (cfg : Config) (s : DMState) (req : AmassRequest) (r : DNSRec) : DMState × List Event :=
  if IsDomainInScope cfg.roots req.Name then findNamesAndAddresses cfg s r.Data
  else (s, [])

/-- `insertSPF`: identical to `insertTXT`. -/
def insertSPF (cfg : Config) (s : DMState) (req : AmassRequest) (r : DNSRec) : DMState × List Event :=
  if IsDomainInScope cfg.roots req.Name then findNamesAndAddresses cfg s r.Data
  else (s, [])

/-- The record-type dispatch of `manageData` (IANA codes: A=1, NS=2,
CNAME=5, PTR=12, MX=15, TXT=16, AAAA=28, SRV=33, SPF=99); unmatched types
are skipped. -/
def dispatchRecord (cfg : Config) (s : DMState) (req : AmassRequest) (r : DNSRec) : DMState × List Event :=
  if r.Rtype = 1 then insertA cfg s req r
  else if r.Rtype = 28 then insertAAAA cfg s req r
  else if r.Rtype = 5 then insertCNAME cfg s req r
  else if r.Rtype = 12 then insertPTR cfg s req r
  else if r.Rtype = 33 then insertSRV s req r
  else if r.Rtype = 2 then insertNS cfg s req r
  else if r.Rtype = 15 then insertMX cfg s req r
  else if r.Rtype = 16 then insertTXT cfg s req r
  else if r.Rtype = 99 then insertSPF cfg s req r
  else (s, [])

/-- A record with its name and data canonicalized, as the loop body of
`manageData` does before dispatch. -/
def lowerRec (r : DNSRec) : DNSRec := { r with Name := lower r.Name, Data := lower r.Data }

/-- Processing of one record by the `manageData` loop. -/
def processRecord (cfg : Config) (s : DMState) (req : AmassRequest) (r : DNSRec) : DMState × List Event :=
  dispatchRecord cfg s req (lowerRec r)

/-- The record loop of `manageData`, accumulating publications in order. -/
def foldRecords (cfg : Config) (req : AmassRequest) (s : DMState) : List DNSRec → DMState × List Event
  | [] => (s, [])
  | r :: rest =>
    let p := processRecord cfg s req r
    let q := foldRecords cfg req p.1 rest
    (q.1, p.2 ++ q.2)

/-- `manageData`: canonicalize the request, ensure its domain, process
every record. -/
def manageData (cfg : Config) (s : DMState) (req : AmassRequest) : DMState × List Event :=
  let req1 := { req with Name := lower req.Name, Domain := lower req.Domain }
  let p := insertDomain s req1.Domain
  let q := foldRecords cfg req1 p.1 req1.Records
  (q.1, p.2 ++ q.2)

/-- `sendOutput`: for each record of `GetNewOutput` (passed in as a list),
test-and-add its name on the output filter, then publish when it was fresh
and is in scope. -/
def sendOutput (cfg : Config) (s : DMState) : List OutputRec → DMState × List Event
  | [] => (s, [])
  | o :: rest =>
    let p := StringFilterDup s.filter o.Name
    let s1 := { s with filter := p.2 }
    let q := sendOutput cfg s1 rest
    if !p.1 && IsDomainInScope cfg.roots o.Name then (q.1, Event.output o :: q.2)
    else (q.1, q.2)

/-- One step of the enumeration loop of `processRequests`: either a
`CHECKED` request arrives or the output tick fires with a batch of new
graph output. -/
inductive EnumStep where
  | checked (req : AmassRequest)
  | tick (out : List OutputRec)

/-- Run one enumeration step. -/
def runStep (cfg : Config) (s : DMState) : EnumStep → DMState × List Event
  | EnumStep.checked req => manageData cfg s req
  | EnumStep.tick out => sendOutput cfg s out

/-- Run a whole enumeration: a sequence of steps from a state. -/
def runSteps (cfg : Config) (s : DMState) : List EnumStep → DMState × List Event
  | [] => (s, [])
  | st :: rest =>
    let p := runStep cfg s st
    let q := runSteps cfg p.1 rest
    (q.1, p.2 ++ q.2)

/-- The body of `PTRArchive.executeQuery` for one regex match `sd` of the
fetched page: build the request from the cleaned name and publish it
unless the data-source-duplicate filter drops it. -/
def ptrarchiveHandleMatch (s : DMState) (domain sd : Str) : DMState × List Event :=
  let req := { emptyReq with Name := cleanName sd, Domain := domain,
                             Tag := scrapeTag, Source := ptrarchiveLabel }
  let p := DupDataSourceName s req
  if p.1 then (p.2, []) else (p.2, [Event.newname req])

/-- The match loop of `PTRArchive.executeQuery`, over the list of regex
matches extracted from the fetched page. -/
def ptrarchiveExecuteQuery (s : DMState) (domain : Str) : List Str → DMState × List Event
  | [] => (s, [])
  | sd :: rest =>
    let p := ptrarchiveHandleMatch s domain sd
    let q := ptrarchiveExecuteQuery p.1 domain rest
    (q.1, p.2 ++ q.2)

/- Event projections. -/

/-- The `NEWNAME` publications among a list of events. -/
def newnameEvs (evs : List Event) : List Event :=
  evs.filter (fun e => match e with | Event.newname _ => true | _ => false)

/-- The `NEWADDR` publications among a list of events. -/
def newaddrEvs (evs : List Event) : List Event :=
  evs.filter (fun e => match e with | Event.newaddr _ => true | _ => false)

/-- The `OUTPUT` publications among a list of events. -/
def outputRecs (evs : List Event) : List OutputRec :=
  evs.filterMap (fun e => match e with | Event.output o => some o | _ => none)

/-! ## Lemmas and claim theorems -/

theorem toNat_ofNat_valid (n : Nat) (h : n < 55296) : (Char.ofNat n).toNat = n := by
  rw [Char.ofNat, dif_pos (Or.inl h)]
  rfl

theorem toLowerChar_idem (c : Char) : toLowerChar (toLowerChar c) = toLowerChar c := by
  by_cases h : 65 ≤ c.toNat ∧ c.toNat ≤ 90
  · have h1 : toLowerChar c = Char.ofNat (c.toNat + 32) := by
      unfold toLowerChar
      rw [if_pos h]
    have hv : (Char.ofNat (c.toNat + 32)).toNat = c.toNat + 32 :=
      toNat_ofNat_valid _ (by omega)
    rw [h1]
    unfold toLowerChar
    rw [if_neg]
    rw [hv]
    omega
  · have h1 : toLowerChar c = c := by
      unfold toLowerChar
      rw [if_neg h]
    rw [h1, h1]

theorem lower_idem (s : Str) : lower (lower s) = lower s := by
  induction s with
  | nil => rfl
  | cons c t ih => simp [lower] at ih ⊢; exact ⟨toLowerChar_idem c, ih⟩

theorem toLowerChar_eq_dot (c : Char) : (toLowerChar c = '.') ↔ (c = '.') := by
  unfold toLowerChar
  by_cases h : 65 ≤ c.toNat ∧ c.toNat ≤ 90
  · rw [if_pos h]
    constructor
    · intro hc
      have h2 := congrArg Char.toNat hc
      rw [toNat_ofNat_valid _ (by omega)] at h2
      have h3 : ('.' : Char).toNat = 46 := by decide
      rw [h3] at h2
      omega
    · intro hc
      subst hc
      exact absurd h (by decide)
  · rw [if_neg h]

theorem lower_removeLastDot (s : Str) : lower (removeLastDot s) = removeLastDot (lower s) := by
  induction s with
  | nil => rfl
  | cons c t ih =>
    cases t with
    | nil =>
      by_cases hc : c = '.'
      · subst hc
        simp [removeLastDot, lower]
        decide
      · have hlc : ¬ toLowerChar c = '.' := fun hx => hc ((toLowerChar_eq_dot c).mp hx)
        simp [removeLastDot, lower, hc, hlc]
    | cons d u =>
      simp [removeLastDot, lower] at ih ⊢
      exact ih

theorem toLowerChar_beq_dot (c : Char) : (toLowerChar c == '.') = (c == '.') := by
  by_cases hc : c = '.'
  · subst hc
    decide
  · have hlc : ¬ toLowerChar c = '.' := fun hx => hc ((toLowerChar_eq_dot c).mp hx)
    simp [hc, hlc]

theorem endsTwoDots_lower (s : Str) : endsTwoDots (lower s) = endsTwoDots s := by
  induction s with
  | nil => rfl
  | cons c t ih =>
    cases t with
    | nil => rfl
    | cons d u =>
      cases u with
      | nil =>
        simp [lower, endsTwoDots, toLowerChar_beq_dot]
      | cons e v =>
        simp [lower, endsTwoDots] at ih ⊢
        exact ih

theorem removeLastDot_cons2 (c d : Char) (rest : Str) :
    removeLastDot (c :: d :: rest) = c :: removeLastDot (d :: rest) := rfl

theorem removeLastDot_idem (s : Str) (h : endsTwoDots s = false) :
    removeLastDot (removeLastDot s) = removeLastDot s := by
  induction s with
  | nil => rfl
  | cons c t ih =>
    cases t with
    | nil =>
      by_cases hc : c = '.'
      · subst hc; rfl
      · simp [removeLastDot, hc]
    | cons d u =>
      rw [removeLastDot_cons2]
      cases hu : removeLastDot (d :: u) with
      | nil =>
        have hd : d = '.' ∧ u = [] := by
          cases u with
          | nil =>
            by_cases hdd : d = '.'
            · exact ⟨hdd, rfl⟩
            · simp [removeLastDot, hdd] at hu
          | cons e v => simp [removeLastDot] at hu
        have hcne : c ≠ '.' := by
          intro hcc
          subst hcc
          rw [hd.1, hd.2] at h
          simp [endsTwoDots] at h
        simp [removeLastDot, hcne]
      | cons e es =>
        have ht : endsTwoDots (d :: u) = false := by
          cases u with
          | nil => rfl
          | cons e2 v2 =>
            rw [show endsTwoDots (c :: d :: e2 :: v2) = endsTwoDots (d :: e2 :: v2) from rfl] at h
            exact h
        rw [removeLastDot_cons2, ← hu, ih ht, hu]

/-- C4 (amended): canonicalization is idempotent on every string that does
not end with two consecutive dots. -/
theorem claim4_canonicalize_idem (x : Str) (h : endsTwoDots x = false) :
    canonicalize (canonicalize x) = canonicalize x := by
  unfold canonicalize
  rw [lower_removeLastDot, lower_idem]
  apply removeLastDot_idem
  rw [endsTwoDots_lower]
  exact h

/-- C4 counterexample: on `"a.."` the canonicalization function is not
idempotent — one pass yields `"a."`, a second pass yields `"a"`. -/
theorem claim4_counterexample :
    canonicalize (canonicalize ('a' :: '.' :: '.' :: [])) ≠ canonicalize ('a' :: '.' :: '.' :: []) := by
  decide

theorem claim4_witness :
    endsTwoDots "www.Example.COM.".data = false
    ∧ canonicalize (canonicalize "www.Example.COM.".data) = canonicalize "www.Example.COM.".data :=
  ⟨by decide, claim4_canonicalize_idem "www.Example.COM.".data (by decide)⟩


/- Definitions supporting the invariant proofs. -/

/-- `Ext s t`: state `t` extends state `s` in the course of request
processing — the output filter is untouched and the other filters and the
graph only grow. -/
structure Ext (s t : DMState) : Prop where
  filter_eq : t.filter = s.filter
  domainFilter_mono : ∀ x, x ∈ s.domainFilter → x ∈ t.domainFilter
  dupFilter_mono : ∀ x, x ∈ s.dupFilter → x ∈ t.dupFilter
  graph_mono : ∀ x, x ∈ s.graph → x ∈ t.graph

/-- Equality of the persistent state components (everything except the
call trace). -/
def coreEq (s t : DMState) : Prop :=
  s.filter = t.filter ∧ s.domainFilter = t.domainFilter
    ∧ s.dupFilter = t.dupFilter ∧ s.graph = t.graph

/-- `insertDomain domain` has nothing left to do in state `s`. -/
def DoneDomain (d : Str) (s : DMState) : Prop :=
  lower d = [] ∨ lower d ∈ s.domainFilter

/-- `insertInfrastructure addr` has nothing left to add to the graph. -/
def DoneInfra (cfg : Config) (addr : Str) (s : DMState) : Prop :=
  ∀ t, cfg.ipReq addr = some t →
    GraphOp.insertInfrastructure addr t.1 t.2.1 t.2.2 ∈ s.graph

/-- The A handler has already written its graph facts. -/
def DoneA (cfg : Config) (req : AmassRequest) (r : DNSRec) (s : DMState) : Prop :=
  r.Data ≠ [] →
    GraphOp.insertA req.Name req.Domain r.Data req.Tag req.Source ∈ s.graph
    ∧ DoneInfra cfg r.Data s

/-- The AAAA handler has already written its graph facts. -/
def DoneAAAA (cfg : Config) (req : AmassRequest) (r : DNSRec) (s : DMState) : Prop :=
  r.Data ≠ [] →
    GraphOp.insertAAAA req.Name req.Domain r.Data req.Tag req.Source ∈ s.graph
    ∧ DoneInfra cfg r.Data s

/-- The CNAME handler has already written its graph facts and recorded its
republish pair. -/
def DoneCNAME (cfg : Config) (req : AmassRequest) (r : DNSRec) (s : DMState) : Prop :=
  removeLastDot r.Data ≠ [] → SubdomainToDomain cfg.roots (removeLastDot r.Data) ≠ [] →
    DoneDomain (SubdomainToDomain cfg.roots (removeLastDot r.Data)) s
    ∧ GraphOp.insertCNAME req.Name req.Domain (removeLastDot r.Data)
        (SubdomainToDomain cfg.roots (removeLastDot r.Data)) req.Tag req.Source ∈ s.graph
    ∧ (removeLastDot r.Data, forwardDNS) ∈ s.dupFilter

/-- The PTR handler has already written its graph facts and recorded its
republish pair. -/
def DonePTR (cfg : Config) (req : AmassRequest) (r : DNSRec) (s : DMState) : Prop :=
  removeLastDot r.Data ≠ [] → WhichDomain cfg.roots (removeLastDot r.Data) ≠ [] →
    DoneDomain (WhichDomain cfg.roots (removeLastDot r.Data)) s
    ∧ GraphOp.insertPTR req.Name (WhichDomain cfg.roots (removeLastDot r.Data))
        (removeLastDot r.Data) req.Tag req.Source ∈ s.graph
    ∧ (removeLastDot r.Data, req.Source) ∈ s.dupFilter

/-- The SRV handler has already written its graph fact. -/
def DoneSRV (req : AmassRequest) (r : DNSRec) (s : DMState) : Prop :=
  removeLastDot r.Data ≠ [] → removeLastDot r.Name ≠ [] →
    GraphOp.insertSRV req.Name req.Domain (removeLastDot r.Name) (removeLastDot r.Data)
      req.Tag req.Source ∈ s.graph

/-- The NS handler has already written its graph facts and recorded its
republish pair. -/
def DoneNS (cfg : Config) (req : AmassRequest) (r : DNSRec) (s : DMState) : Prop :=
  lastCommaField r.Data ≠ [] → SubdomainToDomain cfg.roots (lastCommaField r.Data) ≠ [] →
    DoneDomain (SubdomainToDomain cfg.roots (lastCommaField r.Data)) s
    ∧ GraphOp.insertNS req.Name req.Domain (lastCommaField r.Data)
        (SubdomainToDomain cfg.roots (lastCommaField r.Data)) req.Tag req.Source ∈ s.graph
    ∧ (lastCommaField r.Data ≠ SubdomainToDomain cfg.roots (lastCommaField r.Data) →
        (lastCommaField r.Data, forwardDNS) ∈ s.dupFilter)

/-- The MX handler has already written its graph facts and recorded its
republish pair. -/
def DoneMX (cfg : Config) (req : AmassRequest) (r : DNSRec) (s : DMState) : Prop :=
  removeLastDot r.Data ≠ [] → SubdomainToDomain cfg.roots (removeLastDot r.Data) ≠ [] →
    DoneDomain (SubdomainToDomain cfg.roots (removeLastDot r.Data)) s
    ∧ GraphOp.insertMX req.Name req.Domain (removeLastDot r.Data)
        (SubdomainToDomain cfg.roots (removeLastDot r.Data)) req.Tag req.Source ∈ s.graph
    ∧ (removeLastDot r.Data ≠ SubdomainToDomain cfg.roots (removeLastDot r.Data) →
        (removeLastDot r.Data, forwardDNS) ∈ s.dupFilter)

/-- All republish pairs of a name list are recorded. -/
def DoneNames (cfg : Config) (names : List Str) (s : DMState) : Prop :=
  ∀ nm ∈ names, IsDomainInScope cfg.roots nm = true → WhichDomain cfg.roots nm ≠ [] →
    (nm, forwardDNS) ∈ s.dupFilter

/-- The TXT/SPF handler has already recorded every republish pair. -/
def DoneTXT (cfg : Config) (req : AmassRequest) (r : DNSRec) (s : DMState) : Prop :=
  IsDomainInScope cfg.roots req.Name = true → DoneNames cfg (findSubdomains r.Data) s

/-- Saturation of the dispatched handler for one (already canonicalized)
record. -/
def DoneDispatch (cfg : Config) (req : AmassRequest) (r : DNSRec) (s : DMState) : Prop :=
  if r.Rtype = 1 then DoneA cfg req r s
  else if r.Rtype = 28 then DoneAAAA cfg req r s
  else if r.Rtype = 5 then DoneCNAME cfg req r s
  else if r.Rtype = 12 then DonePTR cfg req r s
  else if r.Rtype = 33 then DoneSRV req r s
  else if r.Rtype = 2 then DoneNS cfg req r s
  else if r.Rtype = 15 then DoneMX cfg req r s
  else if r.Rtype = 16 then DoneTXT cfg req r s
  else if r.Rtype = 99 then DoneTXT cfg req r s
  else True

/-- Saturation for one raw record as processed by the `manageData` loop. -/
def DoneRec (cfg : Config) (req : AmassRequest) (r : DNSRec) (s : DMState) : Prop :=
  DoneDispatch cfg req (lowerRec r) s

/-- The `NEWADDR` publications of the A/AAAA handlers, which do not depend
on the state. -/
def fixedA (cfg : Config) (req : AmassRequest) (r : DNSRec) : List Event :=
  if r.Data = [] then []
  else if IsDomainInScope cfg.roots req.Name = true then
    [Event.newaddr ⟨[], req.Domain, r.Data, req.Tag, req.Source, []⟩]
  else []

/-- The `NEWADDR` publications of the TXT/SPF handlers, which do not
depend on the state. -/
def fixedTXT (cfg : Config) (req : AmassRequest) (r : DNSRec) : List Event :=
  if IsDomainInScope cfg.roots req.Name = true then ipEvents r.Data else []

/-- The state-independent (`NEWADDR`) publications of the dispatched
handler for one (already canonicalized) record. -/
def fixedDispatch (cfg : Config) (req : AmassRequest) (r : DNSRec) : List Event :=
  if r.Rtype = 1 then fixedA cfg req r
  else if r.Rtype = 28 then fixedA cfg req r
  else if r.Rtype = 16 then fixedTXT cfg req r
  else if r.Rtype = 99 then fixedTXT cfg req r
  else []

/-- The state-independent publications for one raw record. -/
def fixedRec (cfg : Config) (req : AmassRequest) (r : DNSRec) : List Event :=
  fixedDispatch cfg req (lowerRec r)

/-- The state-independent publications of a record list. -/
def fixedRecords (cfg : Config) (req : AmassRequest) : List DNSRec → List Event
  | [] => []
  | r :: rest => fixedRec cfg req r ++ fixedRecords cfg req rest

/-- Whether a graph operation is a domain insertion. -/
def isDomainOp : GraphOp → Bool
  | GraphOp.insertDomain _ _ _ => true
  | _ => false

/-- The C9 invariant: every recorded `InsertDomain` call has its domain in
the domain filter, and each exact `InsertDomain` call appears at most once
in the call trace. -/
def Jinv (s : DMState) : Prop :=
  ∀ d t src,
    (GraphOp.insertDomain d t src ∈ s.calls → d ∈ s.domainFilter)
    ∧ List.countP (fun op => decide (op = GraphOp.insertDomain d t src)) s.calls ≤ 1

/-- The C1 invariant relating the output filter to the emitted `OUTPUT`
events. -/
def OutInv (cfg : Config) (s : DMState) (evs : List Event) : Prop :=
  (∀ o ∈ outputRecs evs, o.Name ∈ s.filter ∧ IsDomainInScope cfg.roots o.Name = true)
  ∧ ((outputRecs evs).map OutputRec.Name).Nodup


/-- The request as canonicalized at the top of `manageData`. -/
def reqLower (req : AmassRequest) : AmassRequest :=
  { req with Name := lower req.Name, Domain := lower req.Domain }

/-- Saturation of a whole `CHECKED` request: its domain is recorded and
every record's handler is saturated. -/
def DoneReq (cfg : Config) (req : AmassRequest) (s : DMState) : Prop :=
  DoneDomain (lower req.Domain) s
  ∧ ∀ r ∈ req.Records, DoneRec cfg (reqLower req) r s

/- Characterizations of the basic state operations. -/

theorem sendNewName_eq (s : DMState) (req : AmassRequest) :
    sendNewName s req =
      if (req.Name, req.Source) ∈ s.dupFilter then (s, [])
      else ({ s with dupFilter := s.dupFilter ++ [(req.Name, req.Source)] }, [Event.newname req]) := by
  by_cases h : (req.Name, req.Source) ∈ s.dupFilter <;>
    simp [sendNewName, DupDataSourceName, h]

theorem insertDomain_empty (s : DMState) (domain : Str) (h : lower domain = []) :
    insertDomain s domain = (s, []) := by
  simp [insertDomain, h]

theorem insertDomain_dup (s : DMState) (domain : Str) (h : lower domain ∈ s.domainFilter) :
    insertDomain s domain = (s, []) := by
  by_cases he : lower domain = []
  · simp [insertDomain, he]
  · simp [insertDomain, he, checkDomain, StringFilterDup, h]

theorem insertDomain_fresh (s : DMState) (domain : Str) (he : lower domain ≠ [])
    (h : lower domain ∉ s.domainFilter) :
    insertDomain s domain =
      (⟨s.filter,
        s.domainFilter ++ [lower domain],
        if (lower domain, forwardDNS) ∈ s.dupFilter then s.dupFilter
          else s.dupFilter ++ [(lower domain, forwardDNS)],
        if GraphOp.insertDomain (lower domain) dnsTag forwardDNS ∈ s.graph then s.graph
          else s.graph ++ [GraphOp.insertDomain (lower domain) dnsTag forwardDNS],
        s.calls ++ [GraphOp.insertDomain (lower domain) dnsTag forwardDNS]⟩,
       if (lower domain, forwardDNS) ∈ s.dupFilter then []
         else [Event.newname ⟨lower domain, lower domain, [], dnsTag, forwardDNS, []⟩]) := by
  simp only [insertDomain, he, checkDomain, StringFilterDup, h, if_neg, if_false, ite_false]
  rw [sendNewName_eq]
  by_cases hd : (lower domain, forwardDNS) ∈ s.dupFilter <;>
    simp [graphInsert, hd, emptyReq]

/- Facts about the scope utilities. -/

theorem SubdomainToDomain_nil (roots : List Str) : SubdomainToDomain roots [] = [] := by
  unfold SubdomainToDomain
  induction roots with
  | nil => rfl
  | cons r rs ih =>
    simp only [List.foldl_cons]
    by_cases h : hasSuffix [] r = true
    · have hr : r = [] := by
        unfold hasSuffix at h
        simpa using of_decide_eq_true h
      subst hr
      simpa using ih
    · simp only [Bool.not_eq_true] at h
      simp only [h, Bool.false_and]
      simpa using ih

theorem SubdomainToDomain_mem_aux (name : Str) (roots : List Str) (acc : Str) :
    roots.foldl (fun acc r => if hasSuffix name r && decide (acc.length < r.length) then r else acc) acc = acc
    ∨ roots.foldl (fun acc r => if hasSuffix name r && decide (acc.length < r.length) then r else acc) acc ∈ roots := by
  induction roots generalizing acc with
  | nil => exact Or.inl rfl
  | cons r rs ih =>
    simp only [List.foldl_cons]
    rcases ih (if hasSuffix name r && decide (acc.length < r.length) then r else acc) with h | h
    · rw [h]
      by_cases hc : (hasSuffix name r && decide (acc.length < r.length)) = true
      · rw [if_pos hc]
        exact Or.inr (List.mem_cons_self r rs)
      · rw [if_neg hc]
        exact Or.inl rfl
    · exact Or.inr (List.mem_cons_of_mem r h)

theorem SubdomainToDomain_mem (roots : List Str) (name : Str) :
    SubdomainToDomain roots name = [] ∨ SubdomainToDomain roots name ∈ roots :=
  SubdomainToDomain_mem_aux name roots []

/-- C10 helper: the lowered record keeps its type. -/
theorem lowerRec_Rtype (r : DNSRec) : (lowerRec r).Rtype = r.Rtype := rfl

/-- C10: a record whose DNS type is not among the nine handled codes is
silently skipped: the state is unchanged and nothing is published. -/
theorem claim10_unknownType_noop (cfg : Config) (s : DMState) (req : AmassRequest) (r : DNSRec)
    (h : r.Rtype ∉ ([1, 2, 5, 12, 15, 16, 28, 33, 99] : List Nat)) :
    processRecord cfg s req r = (s, []) := by
  simp only [List.mem_cons, List.mem_singleton, not_or] at h
  obtain ⟨h1, h2, h5, h12, h15, h16, h28, h33, h99, -⟩ := h
  simp [processRecord, dispatchRecord, lowerRec, h1, h2, h5, h12, h15, h16, h28, h33, h99]

theorem claim10_witness :
    processRecord ⟨["x.com".data], fun _ => none⟩ initState emptyReq ⟨"a.x.com".data, 6, "x.com".data⟩
      = (initState, []) :=
  claim10_unknownType_noop _ _ _ _ (by decide)

/- Empty-data behaviour of each record handler (claim C8). -/

theorem insertA_emptyData (cfg : Config) (s : DMState) (req : AmassRequest) (r : DNSRec)
    (h : r.Data = []) : insertA cfg s req r = (s, []) := by
  simp [insertA, h]

theorem insertAAAA_emptyData (cfg : Config) (s : DMState) (req : AmassRequest) (r : DNSRec)
    (h : r.Data = []) : insertAAAA cfg s req r = (s, []) := by
  simp [insertAAAA, h]

theorem insertCNAME_emptyData (cfg : Config) (s : DMState) (req : AmassRequest) (r : DNSRec)
    (h : r.Data = []) : insertCNAME cfg s req r = (s, []) := by
  simp [insertCNAME, h, removeLastDot]

theorem insertPTR_emptyData (cfg : Config) (s : DMState) (req : AmassRequest) (r : DNSRec)
    (h : r.Data = []) : insertPTR cfg s req r = (s, []) := by
  simp [insertPTR, h, removeLastDot]

theorem insertMX_emptyData (cfg : Config) (s : DMState) (req : AmassRequest) (r : DNSRec)
    (h : r.Data = []) : insertMX cfg s req r = (s, []) := by
  simp [insertMX, h, removeLastDot]

theorem insertSRV_emptyData (s : DMState) (req : AmassRequest) (r : DNSRec)
    (h : r.Data = []) : insertSRV s req r = (s, []) := by
  simp [insertSRV, h, removeLastDot]

theorem lastCommaField_nil : lastCommaField [] = [] := rfl

theorem insertNS_emptyData (cfg : Config) (s : DMState) (req : AmassRequest) (r : DNSRec)
    (h : r.Data = []) : insertNS cfg s req r = (s, []) := by
  simp [insertNS, h, lastCommaField_nil]

theorem insertTXT_emptyData (cfg : Config) (s : DMState) (req : AmassRequest) (r : DNSRec)
    (h : r.Data = []) : insertTXT cfg s req r = (s, []) := by
  have hf : findNamesAndAddresses cfg s [] = (s, []) := rfl
  by_cases hs : IsDomainInScope cfg.roots req.Name = true <;> simp [insertTXT, hs, h, hf]

theorem insertSPF_emptyData (cfg : Config) (s : DMState) (req : AmassRequest) (r : DNSRec)
    (h : r.Data = []) : insertSPF cfg s req r = (s, []) := by
  have hf : findNamesAndAddresses cfg s [] = (s, []) := rfl
  by_cases hs : IsDomainInScope cfg.roots req.Name = true <;> simp [insertSPF, hs, h, hf]

/-- C8: a record with empty data, of any of the nine handled DNS types, is
dropped without any state change or publication. -/
theorem claim8_emptyData_noop (cfg : Config) (s : DMState) (req : AmassRequest) (r : DNSRec)
    (h : r.Data = []) (hty : r.Rtype ∈ ([1, 2, 5, 12, 15, 16, 28, 33, 99] : List Nat)) :
    processRecord cfg s req r = (s, []) := by
  have hld : (lowerRec r).Data = [] := by simp [lowerRec, lower, h]
  unfold processRecord dispatchRecord
  simp only [lowerRec_Rtype]
  simp only [List.mem_cons, List.not_mem_nil, or_false] at hty
  rcases hty with h' | h' | h' | h' | h' | h' | h' | h' | h'
  · simp only [h', if_pos]
    exact insertA_emptyData _ _ _ _ hld
  · simp [h']
    exact insertNS_emptyData _ _ _ _ hld
  · simp [h']
    exact insertCNAME_emptyData _ _ _ _ hld
  · simp [h']
    exact insertPTR_emptyData _ _ _ _ hld
  · simp [h']
    exact insertMX_emptyData _ _ _ _ hld
  · simp [h']
    exact insertTXT_emptyData _ _ _ _ hld
  · simp [h']
    exact insertAAAA_emptyData _ _ _ _ hld
  · simp [h']
    exact insertSRV_emptyData _ _ _ hld
  · simp [h']
    exact insertSPF_emptyData _ _ _ _ hld

theorem claim8_witness :
    processRecord ⟨["x.com".data], fun _ => none⟩ initState emptyReq ⟨"a.x.com".data, 5, []⟩
      = (initState, []) :=
  claim8_emptyData_noop _ _ _ _ rfl (by decide)

/-- C7: a CNAME record whose canonicalized target has no owning root domain
is dropped: no graph insertion, no publication, no state change. -/
theorem claim7_cname_outOfScope (cfg : Config) (s : DMState) (req : AmassRequest) (r : DNSRec)
    (hty : r.Rtype = 5)
    (h : SubdomainToDomain cfg.roots (removeLastDot (lower r.Data)) = []) :
    processRecord cfg s req r = (s, []) := by
  unfold processRecord dispatchRecord
  simp only [lowerRec_Rtype, hty]
  have hld : (lowerRec r).Data = lower r.Data := rfl
  by_cases ht : removeLastDot (lower r.Data) = [] <;>
    simp [insertCNAME, hld, ht, h]

theorem claim7_witness :
    processRecord ⟨["example.com".data], fun _ => none⟩ initState
        ⟨"www.example.com".data, "example.com".data, [], dnsTag, "src".data, []⟩
        ⟨"www.example.com".data, 5, "cdn.example.net.".data⟩
      = (initState, []) :=
  claim7_cname_outOfScope _ _ _ _ rfl (by decide)

/-- C3: an A or AAAA record with non-empty data publishes exactly one
`NEWADDR` carrying the lowercased record data when the request's name is
in scope, and publishes nothing when it is not. -/
theorem claim3_newaddr (cfg : Config) (s : DMState) (req : AmassRequest) (r : DNSRec)
    (hty : r.Rtype = 1 ∨ r.Rtype = 28) (hd : r.Data ≠ []) :
    (processRecord cfg s req r).2 =
      if IsDomainInScope cfg.roots req.Name = true then
        [Event.newaddr ⟨[], req.Domain, lower r.Data, req.Tag, req.Source, []⟩]
      else [] := by
  have hld : (lowerRec r).Data = lower r.Data := rfl
  have hne : lower r.Data ≠ [] := by
    simp only [lower, ne_eq, List.map_eq_nil_iff]
    exact hd
  unfold processRecord dispatchRecord
  simp only [lowerRec_Rtype]
  rcases hty with h' | h'
  · by_cases hs : IsDomainInScope cfg.roots req.Name = true <;>
      simp [h', insertA, hld, hne, hs, emptyReq]
  · by_cases hs : IsDomainInScope cfg.roots req.Name = true <;>
      simp [h', insertAAAA, hld, hne, hs, emptyReq]

theorem claim3_witness :
    (processRecord ⟨["example.com".data], fun _ => none⟩ initState
        ⟨"a.example.com".data, "example.com".data, [], dnsTag, "src".data, []⟩
        ⟨"a.example.com".data, 1, "93.184.216.34".data⟩).2
      = [Event.newaddr ⟨[], "example.com".data, "93.184.216.34".data, dnsTag, "src".data, []⟩] := by
  have h := claim3_newaddr ⟨["example.com".data], fun _ => none⟩ initState
      ⟨"a.example.com".data, "example.com".data, [], dnsTag, "src".data, []⟩
      ⟨"a.example.com".data, 1, "93.184.216.34".data⟩ (Or.inl rfl) (by decide)
  rw [h]
  decide

/-- C5: the data-source-duplicate filter gates `NEWNAME` publication, both
in the Data Manager's `sendNewName` and in the PTRArchive worker's query
loop: a `(name, source)` pair already recorded drops the event and leaves
the state unchanged; a fresh pair publishes; and the same name under a
different source label is still published after the first one. -/
theorem claim5_dupFilter_gate (s : DMState) (req req2 : AmassRequest) (domain sd : Str)
    (h2name : req2.Name = req.Name) (h2src : req2.Source ≠ req.Source)
    (h2 : (req2.Name, req2.Source) ∉ s.dupFilter) :
    ((req.Name, req.Source) ∈ s.dupFilter → sendNewName s req = (s, []))
    ∧ ((req.Name, req.Source) ∉ s.dupFilter →
        sendNewName s req =
          ({ s with dupFilter := s.dupFilter ++ [(req.Name, req.Source)] }, [Event.newname req]))
    ∧ Event.newname req2 ∈ (sendNewName (sendNewName s req).1 req2).2
    ∧ ((cleanName sd, ptrarchiveLabel) ∈ s.dupFilter →
        ptrarchiveHandleMatch s domain sd = (s, []))
    ∧ ((cleanName sd, ptrarchiveLabel) ∉ s.dupFilter →
        (ptrarchiveHandleMatch s domain sd).2 =
          [Event.newname ⟨cleanName sd, domain, [], scrapeTag, ptrarchiveLabel, []⟩]) := by
  refine ⟨?_, ?_, ?_, ?_, ?_⟩
  · intro h
    simp [sendNewName_eq, h]
  · intro h
    simp [sendNewName_eq, h]
  · have hafter : (req2.Name, req2.Source) ∉ (sendNewName s req).1.dupFilter := by
      rw [sendNewName_eq]
      by_cases h : (req.Name, req.Source) ∈ s.dupFilter
      · simpa [h] using h2
      · simp only [h, if_neg, if_false, ite_false]
        simp only [List.mem_append, List.mem_singleton]
        rintro (hin | heq)
        · exact h2 hin
        · exact h2src (congrArg Prod.snd heq)
    rw [sendNewName_eq (sendNewName s req).1 req2, if_neg hafter]
    simp
  · intro h
    simp [ptrarchiveHandleMatch, DupDataSourceName, emptyReq, h]
  · intro h
    simp [ptrarchiveHandleMatch, DupDataSourceName, emptyReq, h]

theorem claim5_witness :
    ((("a.x.com".data, "SrcA".data) ∈ initState.dupFilter →
        sendNewName initState ⟨"a.x.com".data, "x.com".data, [], dnsTag, "SrcA".data, []⟩ = (initState, []))
    ∧ (("a.x.com".data, "SrcA".data) ∉ initState.dupFilter →
        sendNewName initState ⟨"a.x.com".data, "x.com".data, [], dnsTag, "SrcA".data, []⟩ =
          ({ initState with dupFilter := initState.dupFilter ++ [("a.x.com".data, "SrcA".data)] },
           [Event.newname ⟨"a.x.com".data, "x.com".data, [], dnsTag, "SrcA".data, []⟩]))
    ∧ Event.newname ⟨"a.x.com".data, "x.com".data, [], dnsTag, "SrcB".data, []⟩ ∈
        (sendNewName (sendNewName initState ⟨"a.x.com".data, "x.com".data, [], dnsTag, "SrcA".data, []⟩).1
          ⟨"a.x.com".data, "x.com".data, [], dnsTag, "SrcB".data, []⟩).2
    ∧ ((cleanName "b.x.com".data, ptrarchiveLabel) ∈ initState.dupFilter →
        ptrarchiveHandleMatch initState "x.com".data "b.x.com".data = (initState, []))
    ∧ ((cleanName "b.x.com".data, ptrarchiveLabel) ∉ initState.dupFilter →
        (ptrarchiveHandleMatch initState "x.com".data "b.x.com".data).2 =
          [Event.newname ⟨cleanName "b.x.com".data, "x.com".data, [], scrapeTag, ptrarchiveLabel, []⟩])) :=
  claim5_dupFilter_gate initState
    ⟨"a.x.com".data, "x.com".data, [], dnsTag, "SrcA".data, []⟩
    ⟨"a.x.com".data, "x.com".data, [], dnsTag, "SrcB".data, []⟩
    "x.com".data "b.x.com".data rfl (by decide) (by decide)

/-- C6 counterexample: for an NS record whose target equals its owning root
domain (`data = "ns1.x.com,x.com"` with root `x.com`), the claimed
equivalence fails — the target does not differ from its owning domain, yet
a `NEWNAME` for the target is still published (by the domain insertion). -/
theorem claim6_counterexample :
    (lastCommaField "ns1.x.com,x.com".data
      = SubdomainToDomain ["x.com".data] (lastCommaField "ns1.x.com,x.com".data))
    ∧ Event.newname ⟨lastCommaField "ns1.x.com,x.com".data,
        SubdomainToDomain ["x.com".data] (lastCommaField "ns1.x.com,x.com".data),
        [], dnsTag, forwardDNS, []⟩ ∈
        (insertNS ⟨["x.com".data], fun _ => none⟩ initState
          ⟨"a.x.com".data, "x.com".data, [], dnsTag, "src".data, []⟩
          ⟨"a.x.com".data, 2, "ns1.x.com,x.com".data⟩).2 := by
  constructor
  · decide
  · decide

theorem insertNS_core (cfg : Config) (s : DMState) (req : AmassRequest) (r : DNSRec)
    (target domain : Str)
    (hT : lastCommaField r.Data = target)
    (hD : SubdomainToDomain cfg.roots target = domain)
    (ht : target ≠ []) (hd : domain ≠ []) (hlow : lower domain = domain) :
    GraphOp.insertNS req.Name req.Domain target domain req.Tag req.Source
        ∈ (insertNS cfg s req r).1.calls
    ∧ (Event.newname ⟨target, domain, [], dnsTag, forwardDNS, []⟩ ∈ (insertNS cfg s req r).2
        ↔ (target, forwardDNS) ∉ s.dupFilter
          ∧ (target ≠ domain ∨ domain ∉ s.domainFilter)) := by
  unfold insertNS
  dsimp only
  rw [hT, hD, if_neg ht, if_neg hd]
  by_cases hdf : domain ∈ s.domainFilter
  · have hp : insertDomain s domain = (s, []) := insertDomain_dup s domain (by rw [hlow]; exact hdf)
    rw [hp]
    by_cases htd : target = domain
    · simp [htd, graphInsert, hdf]
    · rw [if_pos htd]
      rw [sendNewName_eq]
      by_cases hdup : (target, forwardDNS) ∈ s.dupFilter
      · simp [graphInsert, htd, hdup, emptyReq]
      · simp [graphInsert, htd, hdup, emptyReq]
  · have he : lower domain ≠ [] := by rw [hlow]; exact hd
    have hnf : lower domain ∉ s.domainFilter := by rw [hlow]; exact hdf
    have hp := insertDomain_fresh s domain he hnf
    rw [hlow] at hp
    rw [hp]
    by_cases htd : target = domain
    · by_cases hdup : (domain, forwardDNS) ∈ s.dupFilter
      · simp [htd, graphInsert, hdf, hdup]
      · simp [htd, graphInsert, hdf, hdup]
    · rw [if_pos htd]
      rw [sendNewName_eq]
      by_cases hdupD : (domain, forwardDNS) ∈ s.dupFilter
      · by_cases hdup : (target, forwardDNS) ∈ s.dupFilter
        · simp [graphInsert, htd, hdupD, hdup, emptyReq]
        · simp [graphInsert, htd, hdupD, hdup, emptyReq]
      · by_cases hdup : (target, forwardDNS) ∈ s.dupFilter
        · simp [graphInsert, htd, hdupD, hdup, emptyReq, Ne.symm htd]
        · simp [graphInsert, htd, hdupD, hdup, emptyReq, Ne.symm htd]

/-- C6 (amended): the NS handler uses the final comma-separated field of
the record data as the target for both the NS edge and the republish;
records with an empty target or no owning root are dropped entirely; and
(for lowercase-stored roots) a `NEWNAME` for the target is published iff
the target has a non-empty owning root domain, the pair
`(target, "Forward DNS")` is not already in the data-source-duplicate
filter, and either the target differs from its owning domain or that
domain is not yet in the domain filter (in the latter case the
publication comes from the domain insertion, even though the target
equals the domain). -/
theorem claim6_ns_republish (cfg : Config) (s : DMState) (req : AmassRequest) (r : DNSRec)
    (hroots : ∀ d ∈ cfg.roots, lower d = d) :
    (lastCommaField r.Data = [] → insertNS cfg s req r = (s, []))
    ∧ (SubdomainToDomain cfg.roots (lastCommaField r.Data) = [] → insertNS cfg s req r = (s, []))
    ∧ (SubdomainToDomain cfg.roots (lastCommaField r.Data) ≠ [] →
        GraphOp.insertNS req.Name req.Domain (lastCommaField r.Data)
            (SubdomainToDomain cfg.roots (lastCommaField r.Data)) req.Tag req.Source
          ∈ (insertNS cfg s req r).1.calls)
    ∧ (Event.newname ⟨lastCommaField r.Data, SubdomainToDomain cfg.roots (lastCommaField r.Data),
          [], dnsTag, forwardDNS, []⟩ ∈ (insertNS cfg s req r).2
        ↔ SubdomainToDomain cfg.roots (lastCommaField r.Data) ≠ []
          ∧ (lastCommaField r.Data, forwardDNS) ∉ s.dupFilter
          ∧ (lastCommaField r.Data ≠ SubdomainToDomain cfg.roots (lastCommaField r.Data)
              ∨ SubdomainToDomain cfg.roots (lastCommaField r.Data) ∉ s.domainFilter)) := by
  by_cases ht : lastCommaField r.Data = []
  · have hdom : SubdomainToDomain cfg.roots (lastCommaField r.Data) = [] := by
      rw [ht, SubdomainToDomain_nil]
    have hres : insertNS cfg s req r = (s, []) := by
      unfold insertNS
      dsimp only
      rw [if_pos ht]
    refine ⟨fun _ => hres, fun _ => hres, fun h => absurd hdom h, ?_⟩
    rw [hres]
    simp [hdom]
  · by_cases hd : SubdomainToDomain cfg.roots (lastCommaField r.Data) = []
    · have hres : insertNS cfg s req r = (s, []) := by
        unfold insertNS
        dsimp only
        rw [if_neg ht, if_pos hd]
      refine ⟨fun h => absurd h ht, fun _ => hres, fun h => absurd hd h, ?_⟩
      rw [hres]
      simp [hd]
    · have hmem : SubdomainToDomain cfg.roots (lastCommaField r.Data) ∈ cfg.roots := by
        rcases SubdomainToDomain_mem cfg.roots (lastCommaField r.Data) with h0 | h0
        · exact absurd h0 hd
        · exact h0
      have hcore := insertNS_core cfg s req r (lastCommaField r.Data)
        (SubdomainToDomain cfg.roots (lastCommaField r.Data)) rfl rfl ht hd (hroots _ hmem)
      refine ⟨fun h => absurd h ht, fun h => absurd h hd, fun _ => hcore.1, ?_⟩
      rw [hcore.2]
      simp [hd]

theorem claim6_witness :
    ((lastCommaField "ns1.x.com,ns2.x.com".data = [] →
        insertNS ⟨["x.com".data], fun _ => none⟩ initState
          ⟨"a.x.com".data, "x.com".data, [], dnsTag, "src".data, []⟩
          ⟨"a.x.com".data, 2, "ns1.x.com,ns2.x.com".data⟩ = (initState, []))
    ∧ (SubdomainToDomain ["x.com".data] (lastCommaField "ns1.x.com,ns2.x.com".data) = [] →
        insertNS ⟨["x.com".data], fun _ => none⟩ initState
          ⟨"a.x.com".data, "x.com".data, [], dnsTag, "src".data, []⟩
          ⟨"a.x.com".data, 2, "ns1.x.com,ns2.x.com".data⟩ = (initState, []))
    ∧ (SubdomainToDomain ["x.com".data] (lastCommaField "ns1.x.com,ns2.x.com".data) ≠ [] →
        GraphOp.insertNS "a.x.com".data "x.com".data (lastCommaField "ns1.x.com,ns2.x.com".data)
            (SubdomainToDomain ["x.com".data] (lastCommaField "ns1.x.com,ns2.x.com".data))
            dnsTag "src".data
          ∈ (insertNS ⟨["x.com".data], fun _ => none⟩ initState
              ⟨"a.x.com".data, "x.com".data, [], dnsTag, "src".data, []⟩
              ⟨"a.x.com".data, 2, "ns1.x.com,ns2.x.com".data⟩).1.calls)
    ∧ (Event.newname ⟨lastCommaField "ns1.x.com,ns2.x.com".data,
          SubdomainToDomain ["x.com".data] (lastCommaField "ns1.x.com,ns2.x.com".data),
          [], dnsTag, forwardDNS, []⟩ ∈
          (insertNS ⟨["x.com".data], fun _ => none⟩ initState
            ⟨"a.x.com".data, "x.com".data, [], dnsTag, "src".data, []⟩
            ⟨"a.x.com".data, 2, "ns1.x.com,ns2.x.com".data⟩).2
        ↔ SubdomainToDomain ["x.com".data] (lastCommaField "ns1.x.com,ns2.x.com".data) ≠ []
          ∧ (lastCommaField "ns1.x.com,ns2.x.com".data, forwardDNS) ∉ initState.dupFilter
          ∧ (lastCommaField "ns1.x.com,ns2.x.com".data
                ≠ SubdomainToDomain ["x.com".data] (lastCommaField "ns1.x.com,ns2.x.com".data)
              ∨ SubdomainToDomain ["x.com".data] (lastCommaField "ns1.x.com,ns2.x.com".data)
                  ∉ initState.domainFilter))) :=
  claim6_ns_republish ⟨["x.com".data], fun _ => none⟩ initState
    ⟨"a.x.com".data, "x.com".data, [], dnsTag, "src".data, []⟩
    ⟨"a.x.com".data, 2, "ns1.x.com,ns2.x.com".data⟩ (by decide)

/- Extension-order and projection lemmas for the primitive operations. -/

theorem Ext_refl (s : DMState) : Ext s s :=
  ⟨rfl, fun _ h => h, fun _ h => h, fun _ h => h⟩

theorem Ext_trans {s t u : DMState} (h1 : Ext s t) (h2 : Ext t u) : Ext s u :=
  ⟨h2.filter_eq.trans h1.filter_eq,
   fun x hx => h2.domainFilter_mono x (h1.domainFilter_mono x hx),
   fun x hx => h2.dupFilter_mono x (h1.dupFilter_mono x hx),
   fun x hx => h2.graph_mono x (h1.graph_mono x hx)⟩

theorem coreEq_refl (s : DMState) : coreEq s s := ⟨rfl, rfl, rfl, rfl⟩

theorem coreEq_trans {s t u : DMState} (h1 : coreEq s t) (h2 : coreEq t u) : coreEq s u :=
  ⟨h1.1.trans h2.1, h1.2.1.trans h2.2.1, h1.2.2.1.trans h2.2.2.1, h1.2.2.2.trans h2.2.2.2⟩

theorem Ext_of_coreEq {s t : DMState} (h : coreEq s t) : Ext s t :=
  ⟨h.1.symm, fun x hx => h.2.1 ▸ hx, fun x hx => h.2.2.1 ▸ hx, fun x hx => h.2.2.2 ▸ hx⟩

theorem graphInsert_filter (s : DMState) (op : GraphOp) :
    (graphInsert s op).filter = s.filter := rfl

theorem graphInsert_domainFilter (s : DMState) (op : GraphOp) :
    (graphInsert s op).domainFilter = s.domainFilter := rfl

theorem graphInsert_dupFilter (s : DMState) (op : GraphOp) :
    (graphInsert s op).dupFilter = s.dupFilter := rfl

theorem graphInsert_calls (s : DMState) (op : GraphOp) :
    (graphInsert s op).calls = s.calls ++ [op] := rfl

theorem graphInsert_mem (s : DMState) (op : GraphOp) : op ∈ (graphInsert s op).graph := by
  by_cases h : op ∈ s.graph <;> simp [graphInsert, h]

theorem graphInsert_ext (s : DMState) (op : GraphOp) : Ext s (graphInsert s op) := by
  refine ⟨rfl, fun x hx => hx, fun x hx => hx, fun x hx => ?_⟩
  by_cases h : op ∈ s.graph <;> simp [graphInsert, h, hx]

theorem graphInsert_done (s : DMState) (op : GraphOp) (h : op ∈ s.graph) :
    (graphInsert s op).graph = s.graph := by
  simp [graphInsert, h]

theorem sendNewName_filter (s : DMState) (req : AmassRequest) :
    (sendNewName s req).1.filter = s.filter := by
  rw [sendNewName_eq]
  by_cases h : (req.Name, req.Source) ∈ s.dupFilter <;> simp [h]

theorem sendNewName_domainFilter (s : DMState) (req : AmassRequest) :
    (sendNewName s req).1.domainFilter = s.domainFilter := by
  rw [sendNewName_eq]
  by_cases h : (req.Name, req.Source) ∈ s.dupFilter <;> simp [h]

theorem sendNewName_graph (s : DMState) (req : AmassRequest) :
    (sendNewName s req).1.graph = s.graph := by
  rw [sendNewName_eq]
  by_cases h : (req.Name, req.Source) ∈ s.dupFilter <;> simp [h]

theorem sendNewName_calls (s : DMState) (req : AmassRequest) :
    (sendNewName s req).1.calls = s.calls := by
  rw [sendNewName_eq]
  by_cases h : (req.Name, req.Source) ∈ s.dupFilter <;> simp [h]

theorem sendNewName_ext (s : DMState) (req : AmassRequest) : Ext s (sendNewName s req).1 := by
  rw [sendNewName_eq]
  by_cases h : (req.Name, req.Source) ∈ s.dupFilter
  · simp only [h, if_pos]
    exact Ext_refl s
  · simp only [h, if_neg, if_false, ite_false]
    exact ⟨rfl, fun x hx => hx, fun x hx => by simp [hx], fun x hx => hx⟩

theorem sendNewName_pair_mem (s : DMState) (req : AmassRequest) :
    (req.Name, req.Source) ∈ (sendNewName s req).1.dupFilter := by
  rw [sendNewName_eq]
  by_cases h : (req.Name, req.Source) ∈ s.dupFilter <;> simp [h]

theorem sendNewName_noop (s : DMState) (req : AmassRequest)
    (h : (req.Name, req.Source) ∈ s.dupFilter) : sendNewName s req = (s, []) := by
  rw [sendNewName_eq]
  simp [h]

theorem sendNewName_newaddrEvs (s : DMState) (req : AmassRequest) :
    newaddrEvs (sendNewName s req).2 = [] := by
  rw [sendNewName_eq]
  by_cases h : (req.Name, req.Source) ∈ s.dupFilter <;> simp [h, newaddrEvs]

theorem sendNewName_outputRecs (s : DMState) (req : AmassRequest) :
    outputRecs (sendNewName s req).2 = [] := by
  rw [sendNewName_eq]
  by_cases h : (req.Name, req.Source) ∈ s.dupFilter <;> simp [h, outputRecs]

theorem DoneDomain_mono {s t : DMState} (hst : Ext s t) (d : Str)
    (h : DoneDomain d s) : DoneDomain d t := by
  rcases h with h | h
  · exact Or.inl h
  · exact Or.inr (hst.domainFilter_mono _ h)

theorem insertDomain_noop (s : DMState) (d : Str) (h : DoneDomain d s) :
    insertDomain s d = (s, []) := by
  rcases h with h | h
  · exact insertDomain_empty s d h
  · exact insertDomain_dup s d h

theorem insertDomain_filter (s : DMState) (d : Str) :
    (insertDomain s d).1.filter = s.filter := by
  by_cases he : lower d = []
  · rw [insertDomain_empty s d he]
  · by_cases hd : lower d ∈ s.domainFilter
    · rw [insertDomain_dup s d hd]
    · rw [insertDomain_fresh s d he hd]

theorem insertDomain_ext (s : DMState) (d : Str) : Ext s (insertDomain s d).1 := by
  by_cases he : lower d = []
  · rw [insertDomain_empty s d he]
    exact Ext_refl s
  · by_cases hd : lower d ∈ s.domainFilter
    · rw [insertDomain_dup s d hd]
      exact Ext_refl s
    · rw [insertDomain_fresh s d he hd]
      refine ⟨rfl, fun x hx => by simp [hx], fun x hx => ?_, fun x hx => ?_⟩
      · by_cases hp : (lower d, forwardDNS) ∈ s.dupFilter <;> simp [hp, hx]
      · by_cases hg : GraphOp.insertDomain (lower d) dnsTag forwardDNS ∈ s.graph <;>
          simp [hg, hx]

theorem insertDomain_after (s : DMState) (d : Str) : DoneDomain d (insertDomain s d).1 := by
  by_cases he : lower d = []
  · exact Or.inl he
  · by_cases hd : lower d ∈ s.domainFilter
    · rw [insertDomain_dup s d hd]
      exact Or.inr hd
    · rw [insertDomain_fresh s d he hd]
      right
      simp

theorem insertDomain_newaddrEvs (s : DMState) (d : Str) :
    newaddrEvs (insertDomain s d).2 = [] := by
  by_cases he : lower d = []
  · rw [insertDomain_empty s d he]
    rfl
  · by_cases hd : lower d ∈ s.domainFilter
    · rw [insertDomain_dup s d hd]
      rfl
    · rw [insertDomain_fresh s d he hd]
      by_cases hx : (lower d, forwardDNS) ∈ s.dupFilter <;> simp [hx, newaddrEvs]

theorem insertDomain_outputRecs (s : DMState) (d : Str) :
    outputRecs (insertDomain s d).2 = [] := by
  by_cases he : lower d = []
  · rw [insertDomain_empty s d he]
    rfl
  · by_cases hd : lower d ∈ s.domainFilter
    · rw [insertDomain_dup s d hd]
      rfl
    · rw [insertDomain_fresh s d he hd]
      by_cases hx : (lower d, forwardDNS) ∈ s.dupFilter <;> simp [hx, outputRecs]

theorem DoneInfra_mono {s t : DMState} (hst : Ext s t) (cfg : Config) (addr : Str)
    (h : DoneInfra cfg addr s) : DoneInfra cfg addr t :=
  fun u hu => hst.graph_mono _ (h u hu)

theorem insertInfrastructure_filter (cfg : Config) (s : DMState) (addr : Str) :
    (insertInfrastructure cfg s addr).filter = s.filter := by
  cases h : cfg.ipReq addr <;> simp [insertInfrastructure, h, graphInsert]

theorem insertInfrastructure_domainFilter (cfg : Config) (s : DMState) (addr : Str) :
    (insertInfrastructure cfg s addr).domainFilter = s.domainFilter := by
  cases h : cfg.ipReq addr <;> simp [insertInfrastructure, h, graphInsert]

theorem insertInfrastructure_dupFilter (cfg : Config) (s : DMState) (addr : Str) :
    (insertInfrastructure cfg s addr).dupFilter = s.dupFilter := by
  cases h : cfg.ipReq addr <;> simp [insertInfrastructure, h, graphInsert]

theorem insertInfrastructure_ext (cfg : Config) (s : DMState) (addr : Str) :
    Ext s (insertInfrastructure cfg s addr) := by
  cases h : cfg.ipReq addr
  · simp only [insertInfrastructure, h]
    exact Ext_refl s
  · simp only [insertInfrastructure, h]
    exact graphInsert_ext _ _

theorem insertInfrastructure_after (cfg : Config) (s : DMState) (addr : Str) :
    DoneInfra cfg addr (insertInfrastructure cfg s addr) := by
  intro u hu
  simp only [insertInfrastructure, hu]
  exact graphInsert_mem _ _

theorem insertInfrastructure_done (cfg : Config) (s : DMState) (addr : Str)
    (h : DoneInfra cfg addr s) :
    (insertInfrastructure cfg s addr).graph = s.graph := by
  cases hq : cfg.ipReq addr
  · simp [insertInfrastructure, hq]
  · simp only [insertInfrastructure, hq]
    exact graphInsert_done _ _ (h _ hq)

theorem sendNames_ext (cfg : Config) (s : DMState) (names : List Str) :
    Ext s (sendNames cfg s names).1 := by
  induction names generalizing s with
  | nil => exact Ext_refl s
  | cons nm rest ih =>
    by_cases hs : IsDomainInScope cfg.roots nm = true
    · by_cases hd : WhichDomain cfg.roots nm = []
      · simp only [sendNames, hs, hd, if_pos, ite_true]
        exact ih s
      · simp only [sendNames, hs, hd, if_pos, ite_true, if_neg, ite_false]
        exact Ext_trans (sendNewName_ext s _) (ih _)
    · simp only [sendNames, hs, ite_false]
      exact ih s

theorem DoneNames_mono {s t : DMState} (hst : Ext s t) (cfg : Config) (names : List Str)
    (h : DoneNames cfg names s) : DoneNames cfg names t :=
  fun nm hnm h1 h2 => hst.dupFilter_mono _ (h nm hnm h1 h2)

theorem DoneNames_of_cons {cfg : Config} {nm : Str} {names : List Str} {s : DMState}
    (h : DoneNames cfg (nm :: names) s) : DoneNames cfg names s :=
  fun x hx => h x (List.mem_cons_of_mem nm hx)

theorem sendNames_after (cfg : Config) (s : DMState) (names : List Str) :
    DoneNames cfg names (sendNames cfg s names).1 := by
  induction names generalizing s with
  | nil => exact fun nm hnm => absurd hnm (List.not_mem_nil nm)
  | cons nm rest ih =>
    intro x hx hs1 hd1
    rcases List.mem_cons.mp hx with hx | hx
    · subst hx
      by_cases hs : IsDomainInScope cfg.roots x = true
      · by_cases hd : WhichDomain cfg.roots x = []
        · exact absurd hd hd1
        · simp only [sendNames, hs, hd, if_pos, ite_true, if_neg, ite_false]
          refine (sendNames_ext cfg _ rest).dupFilter_mono _ ?_
          exact sendNewName_pair_mem s _
      · exact absurd hs1 hs
    · by_cases hs : IsDomainInScope cfg.roots nm = true
      · by_cases hd : WhichDomain cfg.roots nm = []
        · simp only [sendNames, hs, hd, if_pos, ite_true]
          exact ih s x hx hs1 hd1
        · simp only [sendNames, hs, hd, if_pos, ite_true, if_neg, ite_false]
          exact ih _ x hx hs1 hd1
      · simp only [sendNames, hs, ite_false]
        exact ih s x hx hs1 hd1

theorem sendNames_noop (cfg : Config) (s : DMState) (names : List Str)
    (h : DoneNames cfg names s) : sendNames cfg s names = (s, []) := by
  induction names with
  | nil => rfl
  | cons nm rest ih =>
    by_cases hs : IsDomainInScope cfg.roots nm = true
    · by_cases hd : WhichDomain cfg.roots nm = []
      · simp only [sendNames, hs, hd, if_pos, ite_true]
        exact ih (DoneNames_of_cons h)
      · have hpair : (nm, forwardDNS) ∈ s.dupFilter :=
          h nm (List.mem_cons_self nm rest) hs hd
        simp only [sendNames, hs, hd, if_pos, ite_true, if_neg, ite_false]
        rw [sendNewName_noop s _ hpair]
        simp only []
        rw [ih (DoneNames_of_cons h)]
        rfl
    · simp only [sendNames, hs, ite_false]
      exact ih (DoneNames_of_cons h)

theorem sendNames_newaddrEvs (cfg : Config) (s : DMState) (names : List Str) :
    newaddrEvs (sendNames cfg s names).2 = [] := by
  induction names generalizing s with
  | nil => rfl
  | cons nm rest ih =>
    by_cases hs : IsDomainInScope cfg.roots nm = true
    · by_cases hd : WhichDomain cfg.roots nm = []
      · simp only [sendNames, hs, hd, if_pos, ite_true]
        exact ih s
      · simp only [sendNames, hs, hd, if_pos, ite_true, if_neg, ite_false]
        rw [newaddrEvs, List.filter_append]
        rw [show List.filter _ (sendNewName s _).2 = newaddrEvs (sendNewName s _).2 from rfl]
        rw [show List.filter _ (sendNames cfg _ rest).2 = newaddrEvs (sendNames cfg _ rest).2 from rfl]
        rw [sendNewName_newaddrEvs, ih]
        rfl
    · simp only [sendNames, hs, ite_false]
      exact ih s

theorem sendNames_outputRecs (cfg : Config) (s : DMState) (names : List Str) :
    outputRecs (sendNames cfg s names).2 = [] := by
  induction names generalizing s with
  | nil => rfl
  | cons nm rest ih =>
    by_cases hs : IsDomainInScope cfg.roots nm = true
    · by_cases hd : WhichDomain cfg.roots nm = []
      · simp only [sendNames, hs, hd, if_pos, ite_true]
        exact ih s
      · simp only [sendNames, hs, hd, if_pos, ite_true, if_neg, ite_false]
        rw [outputRecs, List.filterMap_append]
        rw [show List.filterMap _ (sendNewName s _).2 = outputRecs (sendNewName s _).2 from rfl]
        rw [show List.filterMap _ (sendNames cfg _ rest).2 = outputRecs (sendNames cfg _ rest).2 from rfl]
        rw [sendNewName_outputRecs, ih]
        rfl
    · simp only [sendNames, hs, ite_false]
      exact ih s

theorem ipEvents_newaddrEvs (data : Str) : newaddrEvs (ipEvents data) = ipEvents data := by
  unfold ipEvents newaddrEvs
  induction findIPv4 data with
  | nil => rfl
  | cons ip rest ih => simpa using ih

theorem ipEvents_outputRecs (data : Str) : outputRecs (ipEvents data) = [] := by
  unfold ipEvents outputRecs
  induction findIPv4 data with
  | nil => rfl
  | cons ip rest ih => simpa using ih

theorem ipEvents_newnameEvs (data : Str) : newnameEvs (ipEvents data) = [] := by
  unfold ipEvents newnameEvs
  induction findIPv4 data with
  | nil => rfl
  | cons ip rest ih => simpa using ih

theorem findNA_eq (cfg : Config) (s : DMState) (data : Str) :
    findNamesAndAddresses cfg s data =
      ((sendNames cfg s (findSubdomains data)).1,
        ipEvents data ++ (sendNames cfg s (findSubdomains data)).2) := rfl

theorem findNA_ext (cfg : Config) (s : DMState) (data : Str) :
    Ext s (findNamesAndAddresses cfg s data).1 := by
  rw [findNA_eq]
  exact sendNames_ext cfg s _

theorem findNA_newaddrEvs (cfg : Config) (s : DMState) (data : Str) :
    newaddrEvs (findNamesAndAddresses cfg s data).2 = ipEvents data := by
  rw [findNA_eq]
  show newaddrEvs (ipEvents data ++ _) = _
  rw [newaddrEvs, List.filter_append]
  rw [show List.filter _ (ipEvents data) = newaddrEvs (ipEvents data) from rfl]
  rw [show List.filter _ (sendNames cfg s (findSubdomains data)).2
      = newaddrEvs (sendNames cfg s (findSubdomains data)).2 from rfl]
  rw [ipEvents_newaddrEvs, sendNames_newaddrEvs]
  exact List.append_nil _

theorem findNA_outputRecs (cfg : Config) (s : DMState) (data : Str) :
    outputRecs (findNamesAndAddresses cfg s data).2 = [] := by
  rw [findNA_eq]
  show outputRecs (ipEvents data ++ _) = _
  rw [outputRecs, List.filterMap_append]
  rw [show List.filterMap _ (ipEvents data) = outputRecs (ipEvents data) from rfl]
  rw [show List.filterMap _ (sendNames cfg s (findSubdomains data)).2
      = outputRecs (sendNames cfg s (findSubdomains data)).2 from rfl]
  rw [ipEvents_outputRecs, sendNames_outputRecs]
  rfl

theorem findNA_noop (cfg : Config) (s : DMState) (data : Str)
    (h : DoneNames cfg (findSubdomains data) s) :
    findNamesAndAddresses cfg s data = (s, ipEvents data) := by
  rw [findNA_eq, sendNames_noop cfg s _ h]
  simp

/- Preservation of the C9 invariant by the primitive operations. -/

theorem Jinv_of_eq {s t : DMState} (hc : t.calls = s.calls)
    (hd : t.domainFilter = s.domainFilter) (h : Jinv s) : Jinv t := by
  intro d tg src
  rw [hc, hd]
  exact h d tg src

theorem Jinv_graphInsert {s : DMState} {op : GraphOp} (hop : isDomainOp op = false)
    (h : Jinv s) : Jinv (graphInsert s op) := by
  intro d tg src
  have hne : op ≠ GraphOp.insertDomain d tg src := by
    intro hh
    rw [hh] at hop
    exact absurd hop (by simp [isDomainOp])
  constructor
  · intro hmem
    rw [graphInsert_calls] at hmem
    rcases List.mem_append.mp hmem with hmem | hmem
    · exact (h d tg src).1 hmem
    · exact absurd (List.mem_singleton.mp hmem).symm hne
  · rw [graphInsert_calls, List.countP_append]
    have h0 : List.countP (fun op => decide (op = GraphOp.insertDomain d tg src)) [op] = 0 := by
      simp [List.countP_cons, hne]
    rw [h0]
    simpa using (h d tg src).2

theorem Jinv_sendNewName {s : DMState} (req : AmassRequest) (h : Jinv s) :
    Jinv (sendNewName s req).1 :=
  Jinv_of_eq (sendNewName_calls s req) (sendNewName_domainFilter s req) h

theorem Jinv_insertInfrastructure {s : DMState} (cfg : Config) (addr : Str) (h : Jinv s) :
    Jinv (insertInfrastructure cfg s addr) := by
  cases hq : cfg.ipReq addr
  · simpa [insertInfrastructure, hq] using h
  · simp only [insertInfrastructure, hq]
    exact Jinv_graphInsert (by simp [isDomainOp]) h

theorem Jinv_insertDomain {s : DMState} (d : Str) (h : Jinv s) :
    Jinv (insertDomain s d).1 := by
  by_cases he : lower d = []
  · rw [insertDomain_empty s d he]
    exact h
  · by_cases hd : lower d ∈ s.domainFilter
    · rw [insertDomain_dup s d hd]
      exact h
    · rw [insertDomain_fresh s d he hd]
      intro d' tg' src'
      constructor
      · intro hmem
        rcases List.mem_append.mp hmem with hmem | hmem
        · exact List.mem_append.mpr (Or.inl ((h d' tg' src').1 hmem))
        · have heq := List.mem_singleton.mp hmem
          have hd2 : d' = lower d := by
            injection heq
          rw [hd2]
          simp
      · rw [List.countP_append]
        by_cases hsame : GraphOp.insertDomain (lower d) dnsTag forwardDNS
            = GraphOp.insertDomain d' tg' src'
        · have hnotmem : GraphOp.insertDomain d' tg' src' ∉ s.calls := by
            intro hmem2
            have hmem3 := (h d' tg' src').1 hmem2
            injection hsame with h1 h2 h3
            rw [← h1] at hmem3
            exact hd hmem3
          have h0 : List.countP (fun op => decide (op = GraphOp.insertDomain d' tg' src')) s.calls = 0 := by
            rw [List.countP_eq_zero]
            intro a ha
            simp only [decide_eq_true_eq]
            intro hh
            rw [hh] at ha
            exact hnotmem ha
          rw [h0]
          simp [List.countP_cons, hsame]
        · have h1 : List.countP (fun op => decide (op = GraphOp.insertDomain d' tg' src'))
              [GraphOp.insertDomain (lower d) dnsTag forwardDNS] = 0 := by
            simp [List.countP_cons, hsame]
          rw [h1]
          simpa using (h d' tg' src').2

/- List projection helpers. -/

theorem newaddrEvs_append (a b : List Event) :
    newaddrEvs (a ++ b) = newaddrEvs a ++ newaddrEvs b := by
  unfold newaddrEvs
  rw [List.filter_append]

theorem newnameEvs_append (a b : List Event) :
    newnameEvs (a ++ b) = newnameEvs a ++ newnameEvs b := by
  unfold newnameEvs
  rw [List.filter_append]

theorem outputRecs_append (a b : List Event) :
    outputRecs (a ++ b) = outputRecs a ++ outputRecs b := by
  unfold outputRecs
  rw [List.filterMap_append]

theorem sendNewName_newnameEvs (s : DMState) (req : AmassRequest) :
    newnameEvs (sendNewName s req).2 = (sendNewName s req).2 := by
  rw [sendNewName_eq]
  by_cases h : (req.Name, req.Source) ∈ s.dupFilter <;> simp [h, newnameEvs]

theorem sendNames_calls (cfg : Config) (s : DMState) (names : List Str) :
    (sendNames cfg s names).1.calls = s.calls := by
  induction names generalizing s with
  | nil => rfl
  | cons nm rest ih =>
    by_cases hs : IsDomainInScope cfg.roots nm = true
    · by_cases hd : WhichDomain cfg.roots nm = []
      · simp only [sendNames, hs, hd, if_pos, ite_true]
        exact ih s
      · simp only [sendNames, hs, hd, if_pos, ite_true, if_neg, ite_false]
        rw [ih, sendNewName_calls]
    · simp only [sendNames, hs, ite_false]
      exact ih s

theorem sendNames_domainFilter (cfg : Config) (s : DMState) (names : List Str) :
    (sendNames cfg s names).1.domainFilter = s.domainFilter := by
  induction names generalizing s with
  | nil => rfl
  | cons nm rest ih =>
    by_cases hs : IsDomainInScope cfg.roots nm = true
    · by_cases hd : WhichDomain cfg.roots nm = []
      · simp only [sendNames, hs, hd, if_pos, ite_true]
        exact ih s
      · simp only [sendNames, hs, hd, if_pos, ite_true, if_neg, ite_false]
        rw [ih, sendNewName_domainFilter]
    · simp only [sendNames, hs, ite_false]
      exact ih s

/- Per-handler lemma bundles: A. -/

theorem insertA_evs (cfg : Config) (s : DMState) (req : AmassRequest) (r : DNSRec) :
    (insertA cfg s req r).2 = fixedA cfg req r := by
  unfold insertA fixedA
  by_cases hd : r.Data = []
  · simp [hd]
  · by_cases hs : IsDomainInScope cfg.roots req.Name = true <;>
      simp [hd, hs, emptyReq]

theorem insertA_ext (cfg : Config) (s : DMState) (req : AmassRequest) (r : DNSRec) :
    Ext s (insertA cfg s req r).1 := by
  unfold insertA
  by_cases hd : r.Data = []
  · simp only [hd, if_pos, ite_true]
    exact Ext_refl s
  · dsimp only
    rw [if_neg hd]
    by_cases hs : IsDomainInScope cfg.roots req.Name = true <;>
      · simp only [hs, ite_true, ite_false]
        exact Ext_trans (graphInsert_ext s _) (insertInfrastructure_ext cfg _ _)

theorem insertA_Jinv (cfg : Config) {s : DMState} (req : AmassRequest) (r : DNSRec)
    (h : Jinv s) : Jinv (insertA cfg s req r).1 := by
  unfold insertA
  by_cases hd : r.Data = []
  · simpa [hd] using h
  · dsimp only
    rw [if_neg hd]
    have h1 : Jinv (insertInfrastructure cfg
        (graphInsert s (GraphOp.insertA req.Name req.Domain r.Data req.Tag req.Source)) r.Data) :=
      Jinv_insertInfrastructure cfg _ (Jinv_graphInsert (by simp [isDomainOp]) h)
    by_cases hs : IsDomainInScope cfg.roots req.Name = true <;> simpa [hs] using h1

theorem insertA_after (cfg : Config) (s : DMState) (req : AmassRequest) (r : DNSRec) :
    DoneA cfg req r (insertA cfg s req r).1 := by
  intro hd
  unfold insertA
  dsimp only
  rw [if_neg hd]
  have hmem : GraphOp.insertA req.Name req.Domain r.Data req.Tag req.Source ∈
      (insertInfrastructure cfg
        (graphInsert s (GraphOp.insertA req.Name req.Domain r.Data req.Tag req.Source)) r.Data).graph :=
    (insertInfrastructure_ext cfg _ r.Data).graph_mono _ (graphInsert_mem s _)
  have hinf := insertInfrastructure_after cfg
    (graphInsert s (GraphOp.insertA req.Name req.Domain r.Data req.Tag req.Source)) r.Data
  by_cases hs : IsDomainInScope cfg.roots req.Name = true <;> simp [hs, hmem, hinf]

theorem DoneA_mono {s t : DMState} (hst : Ext s t) (cfg : Config) (req : AmassRequest)
    (r : DNSRec) (h : DoneA cfg req r s) : DoneA cfg req r t := by
  intro hd
  exact ⟨hst.graph_mono _ (h hd).1, DoneInfra_mono hst cfg r.Data (h hd).2⟩

theorem insertA_noop (cfg : Config) (s : DMState) (req : AmassRequest) (r : DNSRec)
    (h : DoneA cfg req r s) : coreEq s (insertA cfg s req r).1 := by
  unfold insertA
  by_cases hd : r.Data = []
  · simp only [hd, if_pos, ite_true]
    exact coreEq_refl s
  · dsimp only
    rw [if_neg hd]
    obtain ⟨hg, hi⟩ := h hd
    have hcore : coreEq s (insertInfrastructure cfg
        (graphInsert s (GraphOp.insertA req.Name req.Domain r.Data req.Tag req.Source)) r.Data) := by
      refine ⟨?_, ?_, ?_, ?_⟩
      · rw [insertInfrastructure_filter, graphInsert_filter]
      · rw [insertInfrastructure_domainFilter, graphInsert_domainFilter]
      · rw [insertInfrastructure_dupFilter, graphInsert_dupFilter]
      · rw [insertInfrastructure_done cfg _ r.Data, graphInsert_done s _ hg]
        intro u hu
        rw [graphInsert_done s _ hg]
        exact hi u hu
    by_cases hs : IsDomainInScope cfg.roots req.Name = true <;> simpa [hs] using hcore

/- Per-handler lemma bundles: AAAA. -/

theorem insertAAAA_evs (cfg : Config) (s : DMState) (req : AmassRequest) (r : DNSRec) :
    (insertAAAA cfg s req r).2 = fixedA cfg req r := by
  unfold insertAAAA fixedA
  by_cases hd : r.Data = []
  · simp [hd]
  · by_cases hs : IsDomainInScope cfg.roots req.Name = true <;>
      simp [hd, hs, emptyReq]

theorem insertAAAA_ext (cfg : Config) (s : DMState) (req : AmassRequest) (r : DNSRec) :
    Ext s (insertAAAA cfg s req r).1 := by
  unfold insertAAAA
  by_cases hd : r.Data = []
  · simp only [hd, if_pos, ite_true]
    exact Ext_refl s
  · dsimp only
    rw [if_neg hd]
    by_cases hs : IsDomainInScope cfg.roots req.Name = true <;>
      · simp only [hs, ite_true, ite_false]
        exact Ext_trans (graphInsert_ext s _) (insertInfrastructure_ext cfg _ _)

theorem insertAAAA_Jinv (cfg : Config) {s : DMState} (req : AmassRequest) (r : DNSRec)
    (h : Jinv s) : Jinv (insertAAAA cfg s req r).1 := by
  unfold insertAAAA
  by_cases hd : r.Data = []
  · simpa [hd] using h
  · dsimp only
    rw [if_neg hd]
    have h1 : Jinv (insertInfrastructure cfg
        (graphInsert s (GraphOp.insertAAAA req.Name req.Domain r.Data req.Tag req.Source)) r.Data) :=
      Jinv_insertInfrastructure cfg _ (Jinv_graphInsert (by simp [isDomainOp]) h)
    by_cases hs : IsDomainInScope cfg.roots req.Name = true <;> simpa [hs] using h1

theorem insertAAAA_after (cfg : Config) (s : DMState) (req : AmassRequest) (r : DNSRec) :
    DoneAAAA cfg req r (insertAAAA cfg s req r).1 := by
  intro hd
  unfold insertAAAA
  dsimp only
  rw [if_neg hd]
  have hmem : GraphOp.insertAAAA req.Name req.Domain r.Data req.Tag req.Source ∈
      (insertInfrastructure cfg
        (graphInsert s (GraphOp.insertAAAA req.Name req.Domain r.Data req.Tag req.Source)) r.Data).graph :=
    (insertInfrastructure_ext cfg _ r.Data).graph_mono _ (graphInsert_mem s _)
  have hinf := insertInfrastructure_after cfg
    (graphInsert s (GraphOp.insertAAAA req.Name req.Domain r.Data req.Tag req.Source)) r.Data
  by_cases hs : IsDomainInScope cfg.roots req.Name = true <;> simp [hs, hmem, hinf]

theorem DoneAAAA_mono {s t : DMState} (hst : Ext s t) (cfg : Config) (req : AmassRequest)
    (r : DNSRec) (h : DoneAAAA cfg req r s) : DoneAAAA cfg req r t := by
  intro hd
  exact ⟨hst.graph_mono _ (h hd).1, DoneInfra_mono hst cfg r.Data (h hd).2⟩

theorem insertAAAA_noop (cfg : Config) (s : DMState) (req : AmassRequest) (r : DNSRec)
    (h : DoneAAAA cfg req r s) : coreEq s (insertAAAA cfg s req r).1 := by
  unfold insertAAAA
  by_cases hd : r.Data = []
  · simp only [hd, if_pos, ite_true]
    exact coreEq_refl s
  · dsimp only
    rw [if_neg hd]
    obtain ⟨hg, hi⟩ := h hd
    have hcore : coreEq s (insertInfrastructure cfg
        (graphInsert s (GraphOp.insertAAAA req.Name req.Domain r.Data req.Tag req.Source)) r.Data) := by
      refine ⟨?_, ?_, ?_, ?_⟩
      · rw [insertInfrastructure_filter, graphInsert_filter]
      · rw [insertInfrastructure_domainFilter, graphInsert_domainFilter]
      · rw [insertInfrastructure_dupFilter, graphInsert_dupFilter]
      · rw [insertInfrastructure_done cfg _ r.Data, graphInsert_done s _ hg]
        intro u hu
        rw [graphInsert_done s _ hg]
        exact hi u hu
    by_cases hs : IsDomainInScope cfg.roots req.Name = true <;> simpa [hs] using hcore

/- Per-handler lemma bundles: SRV. -/

theorem insertSRV_evs (s : DMState) (req : AmassRequest) (r : DNSRec) :
    (insertSRV s req r).2 = [] := by
  unfold insertSRV
  by_cases h : removeLastDot r.Data = [] ∨ removeLastDot r.Name = [] <;> simp [h]

theorem insertSRV_ext (s : DMState) (req : AmassRequest) (r : DNSRec) :
    Ext s (insertSRV s req r).1 := by
  unfold insertSRV
  by_cases h : removeLastDot r.Data = [] ∨ removeLastDot r.Name = []
  · simp only [h, if_pos, ite_true]
    exact Ext_refl s
  · simp only [h, if_neg, ite_false]
    exact graphInsert_ext s _

theorem insertSRV_Jinv {s : DMState} (req : AmassRequest) (r : DNSRec)
    (h : Jinv s) : Jinv (insertSRV s req r).1 := by
  unfold insertSRV
  by_cases hc : removeLastDot r.Data = [] ∨ removeLastDot r.Name = []
  · simpa [hc] using h
  · simp only [hc, if_neg, ite_false]
    exact Jinv_graphInsert (by simp [isDomainOp]) h

theorem insertSRV_after (s : DMState) (req : AmassRequest) (r : DNSRec) :
    DoneSRV req r (insertSRV s req r).1 := by
  intro hd hn
  unfold insertSRV
  have hc : ¬(removeLastDot r.Data = [] ∨ removeLastDot r.Name = []) := by
    rintro (hx | hx)
    · exact hd hx
    · exact hn hx
  simp only [hc, if_neg, ite_false]
  exact graphInsert_mem s _

theorem DoneSRV_mono {s t : DMState} (hst : Ext s t) (req : AmassRequest)
    (r : DNSRec) (h : DoneSRV req r s) : DoneSRV req r t :=
  fun hd hn => hst.graph_mono _ (h hd hn)

theorem insertSRV_noop (s : DMState) (req : AmassRequest) (r : DNSRec)
    (h : DoneSRV req r s) : coreEq s (insertSRV s req r).1 := by
  unfold insertSRV
  by_cases hc : removeLastDot r.Data = [] ∨ removeLastDot r.Name = []
  · simp only [hc, if_pos, ite_true]
    exact coreEq_refl s
  · simp only [hc, if_neg, ite_false]
    have hg : GraphOp.insertSRV req.Name req.Domain (removeLastDot r.Name) (removeLastDot r.Data)
        req.Tag req.Source ∈ s.graph := by
      rcases not_or.mp hc with ⟨h1, h2⟩
      exact h h1 h2
    exact ⟨rfl, rfl, rfl, (graphInsert_done s _ hg).symm⟩

/- Per-handler lemma bundles: TXT and SPF. -/

theorem insertTXT_newaddrEvs (cfg : Config) (s : DMState) (req : AmassRequest) (r : DNSRec) :
    newaddrEvs (insertTXT cfg s req r).2 = fixedTXT cfg req r := by
  unfold insertTXT fixedTXT
  by_cases hs : IsDomainInScope cfg.roots req.Name = true
  · simp only [hs, ite_true]
    exact findNA_newaddrEvs cfg s r.Data
  · simp [hs, newaddrEvs]

theorem insertTXT_outputRecs (cfg : Config) (s : DMState) (req : AmassRequest) (r : DNSRec) :
    outputRecs (insertTXT cfg s req r).2 = [] := by
  unfold insertTXT
  by_cases hs : IsDomainInScope cfg.roots req.Name = true
  · simp only [hs, ite_true]
    exact findNA_outputRecs cfg s r.Data
  · simp [hs, outputRecs]

theorem insertTXT_ext (cfg : Config) (s : DMState) (req : AmassRequest) (r : DNSRec) :
    Ext s (insertTXT cfg s req r).1 := by
  unfold insertTXT
  by_cases hs : IsDomainInScope cfg.roots req.Name = true
  · simp only [hs, ite_true]
    exact findNA_ext cfg s r.Data
  · simp only [hs, ite_false]
    exact Ext_refl s

theorem insertTXT_Jinv (cfg : Config) {s : DMState} (req : AmassRequest) (r : DNSRec)
    (h : Jinv s) : Jinv (insertTXT cfg s req r).1 := by
  unfold insertTXT
  by_cases hs : IsDomainInScope cfg.roots req.Name = true
  · simp only [hs, ite_true]
    rw [findNA_eq]
    exact Jinv_of_eq (sendNames_calls cfg s _) (sendNames_domainFilter cfg s _) h
  · simpa [hs] using h

theorem insertTXT_after (cfg : Config) (s : DMState) (req : AmassRequest) (r : DNSRec) :
    DoneTXT cfg req r (insertTXT cfg s req r).1 := by
  intro hs
  unfold insertTXT
  simp only [hs, ite_true]
  rw [findNA_eq]
  exact sendNames_after cfg s _

theorem DoneTXT_mono {s t : DMState} (hst : Ext s t) (cfg : Config) (req : AmassRequest)
    (r : DNSRec) (h : DoneTXT cfg req r s) : DoneTXT cfg req r t :=
  fun hs => DoneNames_mono hst cfg _ (h hs)

theorem insertTXT_noop (cfg : Config) (s : DMState) (req : AmassRequest) (r : DNSRec)
    (h : DoneTXT cfg req r s) :
    coreEq s (insertTXT cfg s req r).1 ∧ (insertTXT cfg s req r).2 = fixedTXT cfg req r := by
  unfold insertTXT fixedTXT
  by_cases hs : IsDomainInScope cfg.roots req.Name = true
  · simp only [hs, ite_true]
    rw [findNA_noop cfg s r.Data (h hs)]
    exact ⟨coreEq_refl s, rfl⟩
  · simp only [hs, ite_false]
    exact ⟨coreEq_refl s, rfl⟩

theorem insertSPF_eq_insertTXT (cfg : Config) (s : DMState) (req : AmassRequest) (r : DNSRec) :
    insertSPF cfg s req r = insertTXT cfg s req r := rfl

/- Per-handler lemma bundles: CNAME. -/

theorem insertCNAME_newaddrEvs (cfg : Config) (s : DMState) (req : AmassRequest) (r : DNSRec) :
    newaddrEvs (insertCNAME cfg s req r).2 = [] := by
  unfold insertCNAME
  dsimp only
  by_cases ht : removeLastDot r.Data = []
  · rw [if_pos ht]
    rfl
  · rw [if_neg ht]
    by_cases hd : SubdomainToDomain cfg.roots (removeLastDot r.Data) = []
    · rw [if_pos hd]
      rfl
    · rw [if_neg hd]
      dsimp only
      rw [newaddrEvs_append, insertDomain_newaddrEvs, sendNewName_newaddrEvs]
      rfl

theorem insertCNAME_outputRecs (cfg : Config) (s : DMState) (req : AmassRequest) (r : DNSRec) :
    outputRecs (insertCNAME cfg s req r).2 = [] := by
  unfold insertCNAME
  dsimp only
  by_cases ht : removeLastDot r.Data = []
  · rw [if_pos ht]
    rfl
  · rw [if_neg ht]
    by_cases hd : SubdomainToDomain cfg.roots (removeLastDot r.Data) = []
    · rw [if_pos hd]
      rfl
    · rw [if_neg hd]
      dsimp only
      rw [outputRecs_append, insertDomain_outputRecs, sendNewName_outputRecs]
      rfl

theorem insertCNAME_ext (cfg : Config) (s : DMState) (req : AmassRequest) (r : DNSRec) :
    Ext s (insertCNAME cfg s req r).1 := by
  unfold insertCNAME
  dsimp only
  by_cases ht : removeLastDot r.Data = []
  · rw [if_pos ht]
    exact Ext_refl s
  · rw [if_neg ht]
    by_cases hd : SubdomainToDomain cfg.roots (removeLastDot r.Data) = []
    · rw [if_pos hd]
      exact Ext_refl s
    · rw [if_neg hd]
      exact Ext_trans (insertDomain_ext s _)
        (Ext_trans (graphInsert_ext _ _) (sendNewName_ext _ _))

theorem insertCNAME_Jinv (cfg : Config) {s : DMState} (req : AmassRequest) (r : DNSRec)
    (h : Jinv s) : Jinv (insertCNAME cfg s req r).1 := by
  unfold insertCNAME
  dsimp only
  by_cases ht : removeLastDot r.Data = []
  · rw [if_pos ht]
    exact h
  · rw [if_neg ht]
    by_cases hd : SubdomainToDomain cfg.roots (removeLastDot r.Data) = []
    · rw [if_pos hd]
      exact h
    · rw [if_neg hd]
      exact Jinv_sendNewName _
        (Jinv_graphInsert (by simp [isDomainOp]) (Jinv_insertDomain _ h))

theorem insertCNAME_after (cfg : Config) (s : DMState) (req : AmassRequest) (r : DNSRec) :
    DoneCNAME cfg req r (insertCNAME cfg s req r).1 := by
  intro ht hd
  unfold insertCNAME
  dsimp only
  rw [if_neg ht, if_neg hd]
  refine ⟨?_, ?_, ?_⟩
  · exact DoneDomain_mono
      (Ext_trans (graphInsert_ext _ _) (sendNewName_ext _ _)) _
      (insertDomain_after s _)
  · exact (sendNewName_ext _ _).graph_mono _ (graphInsert_mem _ _)
  · exact sendNewName_pair_mem _ _

theorem DoneCNAME_mono {s t : DMState} (hst : Ext s t) (cfg : Config) (req : AmassRequest)
    (r : DNSRec) (h : DoneCNAME cfg req r s) : DoneCNAME cfg req r t := by
  intro ht hd
  obtain ⟨h1, h2, h3⟩ := h ht hd
  exact ⟨DoneDomain_mono hst _ h1, hst.graph_mono _ h2, hst.dupFilter_mono _ h3⟩

theorem insertCNAME_noop (cfg : Config) (s : DMState) (req : AmassRequest) (r : DNSRec)
    (h : DoneCNAME cfg req r s) :
    coreEq s (insertCNAME cfg s req r).1 ∧ (insertCNAME cfg s req r).2 = [] := by
  unfold insertCNAME
  dsimp only
  by_cases ht : removeLastDot r.Data = []
  · rw [if_pos ht]
    exact ⟨coreEq_refl s, rfl⟩
  · rw [if_neg ht]
    by_cases hd : SubdomainToDomain cfg.roots (removeLastDot r.Data) = []
    · rw [if_pos hd]
      exact ⟨coreEq_refl s, rfl⟩
    · rw [if_neg hd]
      obtain ⟨hdom, hgraph, hpair⟩ := h ht hd
      rw [insertDomain_noop s _ hdom]
      dsimp only
      rw [sendNewName_eq, graphInsert_dupFilter]
      dsimp only
      rw [if_pos hpair]
      exact ⟨⟨rfl, rfl, rfl, (graphInsert_done s _ hgraph).symm⟩, rfl⟩

/- Per-handler lemma bundles: PTR. -/

theorem insertPTR_newaddrEvs (cfg : Config) (s : DMState) (req : AmassRequest) (r : DNSRec) :
    newaddrEvs (insertPTR cfg s req r).2 = [] := by
  unfold insertPTR
  dsimp only
  by_cases ht : removeLastDot r.Data = []
  · rw [if_pos ht]
    rfl
  · rw [if_neg ht]
    by_cases hd : WhichDomain cfg.roots (removeLastDot r.Data) = []
    · rw [if_pos hd]
      rfl
    · rw [if_neg hd]
      dsimp only
      rw [newaddrEvs_append, insertDomain_newaddrEvs, sendNewName_newaddrEvs]
      rfl

theorem insertPTR_outputRecs (cfg : Config) (s : DMState) (req : AmassRequest) (r : DNSRec) :
    outputRecs (insertPTR cfg s req r).2 = [] := by
  unfold insertPTR
  dsimp only
  by_cases ht : removeLastDot r.Data = []
  · rw [if_pos ht]
    rfl
  · rw [if_neg ht]
    by_cases hd : WhichDomain cfg.roots (removeLastDot r.Data) = []
    · rw [if_pos hd]
      rfl
    · rw [if_neg hd]
      dsimp only
      rw [outputRecs_append, insertDomain_outputRecs, sendNewName_outputRecs]
      rfl

theorem insertPTR_ext (cfg : Config) (s : DMState) (req : AmassRequest) (r : DNSRec) :
    Ext s (insertPTR cfg s req r).1 := by
  unfold insertPTR
  dsimp only
  by_cases ht : removeLastDot r.Data = []
  · rw [if_pos ht]
    exact Ext_refl s
  · rw [if_neg ht]
    by_cases hd : WhichDomain cfg.roots (removeLastDot r.Data) = []
    · rw [if_pos hd]
      exact Ext_refl s
    · rw [if_neg hd]
      exact Ext_trans (insertDomain_ext s _)
        (Ext_trans (graphInsert_ext _ _) (sendNewName_ext _ _))

theorem insertPTR_Jinv (cfg : Config) {s : DMState} (req : AmassRequest) (r : DNSRec)
    (h : Jinv s) : Jinv (insertPTR cfg s req r).1 := by
  unfold insertPTR
  dsimp only
  by_cases ht : removeLastDot r.Data = []
  · rw [if_pos ht]
    exact h
  · rw [if_neg ht]
    by_cases hd : WhichDomain cfg.roots (removeLastDot r.Data) = []
    · rw [if_pos hd]
      exact h
    · rw [if_neg hd]
      exact Jinv_sendNewName _
        (Jinv_graphInsert (by simp [isDomainOp]) (Jinv_insertDomain _ h))

theorem insertPTR_after (cfg : Config) (s : DMState) (req : AmassRequest) (r : DNSRec) :
    DonePTR cfg req r (insertPTR cfg s req r).1 := by
  intro ht hd
  unfold insertPTR
  dsimp only
  rw [if_neg ht, if_neg hd]
  refine ⟨?_, ?_, ?_⟩
  · exact DoneDomain_mono
      (Ext_trans (graphInsert_ext _ _) (sendNewName_ext _ _)) _
      (insertDomain_after s _)
  · exact (sendNewName_ext _ _).graph_mono _ (graphInsert_mem _ _)
  · exact sendNewName_pair_mem _ _

theorem DonePTR_mono {s t : DMState} (hst : Ext s t) (cfg : Config) (req : AmassRequest)
    (r : DNSRec) (h : DonePTR cfg req r s) : DonePTR cfg req r t := by
  intro ht hd
  obtain ⟨h1, h2, h3⟩ := h ht hd
  exact ⟨DoneDomain_mono hst _ h1, hst.graph_mono _ h2, hst.dupFilter_mono _ h3⟩

theorem insertPTR_noop (cfg : Config) (s : DMState) (req : AmassRequest) (r : DNSRec)
    (h : DonePTR cfg req r s) :
    coreEq s (insertPTR cfg s req r).1 ∧ (insertPTR cfg s req r).2 = [] := by
  unfold insertPTR
  dsimp only
  by_cases ht : removeLastDot r.Data = []
  · rw [if_pos ht]
    exact ⟨coreEq_refl s, rfl⟩
  · rw [if_neg ht]
    by_cases hd : WhichDomain cfg.roots (removeLastDot r.Data) = []
    · rw [if_pos hd]
      exact ⟨coreEq_refl s, rfl⟩
    · rw [if_neg hd]
      obtain ⟨hdom, hgraph, hpair⟩ := h ht hd
      rw [insertDomain_noop s _ hdom]
      dsimp only
      rw [sendNewName_eq, graphInsert_dupFilter]
      dsimp only
      rw [if_pos hpair]
      exact ⟨⟨rfl, rfl, rfl, (graphInsert_done s _ hgraph).symm⟩, rfl⟩

/- Per-handler lemma bundles: NS. -/

theorem insertNS_newaddrEvs (cfg : Config) (s : DMState) (req : AmassRequest) (r : DNSRec) :
    newaddrEvs (insertNS cfg s req r).2 = [] := by
  unfold insertNS
  dsimp only
  by_cases ht : lastCommaField r.Data = []
  · rw [if_pos ht]
    rfl
  · rw [if_neg ht]
    by_cases hd : SubdomainToDomain cfg.roots (lastCommaField r.Data) = []
    · rw [if_pos hd]
      rfl
    · rw [if_neg hd]
      by_cases htd : lastCommaField r.Data = SubdomainToDomain cfg.roots (lastCommaField r.Data)
      · rw [if_neg (not_not_intro htd)]
        dsimp only
        rw [insertDomain_newaddrEvs]
      · rw [if_pos htd]
        dsimp only
        rw [newaddrEvs_append, insertDomain_newaddrEvs, sendNewName_newaddrEvs]
        rfl

theorem insertNS_outputRecs (cfg : Config) (s : DMState) (req : AmassRequest) (r : DNSRec) :
    outputRecs (insertNS cfg s req r).2 = [] := by
  unfold insertNS
  dsimp only
  by_cases ht : lastCommaField r.Data = []
  · rw [if_pos ht]
    rfl
  · rw [if_neg ht]
    by_cases hd : SubdomainToDomain cfg.roots (lastCommaField r.Data) = []
    · rw [if_pos hd]
      rfl
    · rw [if_neg hd]
      by_cases htd : lastCommaField r.Data = SubdomainToDomain cfg.roots (lastCommaField r.Data)
      · rw [if_neg (not_not_intro htd)]
        dsimp only
        rw [insertDomain_outputRecs]
      · rw [if_pos htd]
        dsimp only
        rw [outputRecs_append, insertDomain_outputRecs, sendNewName_outputRecs]
        rfl

theorem insertNS_ext (cfg : Config) (s : DMState) (req : AmassRequest) (r : DNSRec) :
    Ext s (insertNS cfg s req r).1 := by
  unfold insertNS
  dsimp only
  by_cases ht : lastCommaField r.Data = []
  · rw [if_pos ht]
    exact Ext_refl s
  · rw [if_neg ht]
    by_cases hd : SubdomainToDomain cfg.roots (lastCommaField r.Data) = []
    · rw [if_pos hd]
      exact Ext_refl s
    · rw [if_neg hd]
      by_cases htd : lastCommaField r.Data = SubdomainToDomain cfg.roots (lastCommaField r.Data)
      · rw [if_neg (not_not_intro htd)]
        exact Ext_trans (insertDomain_ext s _) (graphInsert_ext _ _)
      · rw [if_pos htd]
        exact Ext_trans (insertDomain_ext s _)
          (Ext_trans (graphInsert_ext _ _) (sendNewName_ext _ _))

theorem insertNS_Jinv (cfg : Config) {s : DMState} (req : AmassRequest) (r : DNSRec)
    (h : Jinv s) : Jinv (insertNS cfg s req r).1 := by
  unfold insertNS
  dsimp only
  by_cases ht : lastCommaField r.Data = []
  · rw [if_pos ht]
    exact h
  · rw [if_neg ht]
    by_cases hd : SubdomainToDomain cfg.roots (lastCommaField r.Data) = []
    · rw [if_pos hd]
      exact h
    · rw [if_neg hd]
      by_cases htd : lastCommaField r.Data = SubdomainToDomain cfg.roots (lastCommaField r.Data)
      · rw [if_neg (not_not_intro htd)]
        exact Jinv_graphInsert (by simp [isDomainOp]) (Jinv_insertDomain _ h)
      · rw [if_pos htd]
        exact Jinv_sendNewName _
          (Jinv_graphInsert (by simp [isDomainOp]) (Jinv_insertDomain _ h))

theorem insertNS_after (cfg : Config) (s : DMState) (req : AmassRequest) (r : DNSRec) :
    DoneNS cfg req r (insertNS cfg s req r).1 := by
  intro ht hd
  unfold insertNS
  dsimp only
  rw [if_neg ht, if_neg hd]
  by_cases htd : lastCommaField r.Data = SubdomainToDomain cfg.roots (lastCommaField r.Data)
  · rw [if_neg (not_not_intro htd)]
    refine ⟨?_, ?_, ?_⟩
    · exact DoneDomain_mono (graphInsert_ext _ _) _ (insertDomain_after s _)
    · exact graphInsert_mem _ _
    · intro hcontra
      exact absurd htd hcontra
  · rw [if_pos htd]
    refine ⟨?_, ?_, ?_⟩
    · exact DoneDomain_mono
        (Ext_trans (graphInsert_ext _ _) (sendNewName_ext _ _)) _
        (insertDomain_after s _)
    · exact (sendNewName_ext _ _).graph_mono _ (graphInsert_mem _ _)
    · intro _
      exact sendNewName_pair_mem _ _

theorem DoneNS_mono {s t : DMState} (hst : Ext s t) (cfg : Config) (req : AmassRequest)
    (r : DNSRec) (h : DoneNS cfg req r s) : DoneNS cfg req r t := by
  intro ht hd
  obtain ⟨h1, h2, h3⟩ := h ht hd
  exact ⟨DoneDomain_mono hst _ h1, hst.graph_mono _ h2,
    fun hne => hst.dupFilter_mono _ (h3 hne)⟩

theorem insertNS_noop (cfg : Config) (s : DMState) (req : AmassRequest) (r : DNSRec)
    (h : DoneNS cfg req r s) :
    coreEq s (insertNS cfg s req r).1 ∧ (insertNS cfg s req r).2 = [] := by
  unfold insertNS
  dsimp only
  by_cases ht : lastCommaField r.Data = []
  · rw [if_pos ht]
    exact ⟨coreEq_refl s, rfl⟩
  · rw [if_neg ht]
    by_cases hd : SubdomainToDomain cfg.roots (lastCommaField r.Data) = []
    · rw [if_pos hd]
      exact ⟨coreEq_refl s, rfl⟩
    · rw [if_neg hd]
      obtain ⟨hdom, hgraph, hpairc⟩ := h ht hd
      rw [insertDomain_noop s _ hdom]
      dsimp only
      by_cases htd : lastCommaField r.Data = SubdomainToDomain cfg.roots (lastCommaField r.Data)
      · rw [if_neg (not_not_intro htd)]
        exact ⟨⟨rfl, rfl, rfl, (graphInsert_done s _ hgraph).symm⟩, rfl⟩
      · rw [if_pos htd]
        dsimp only
        rw [sendNewName_eq, graphInsert_dupFilter]
        dsimp only
        rw [if_pos (hpairc htd)]
        exact ⟨⟨rfl, rfl, rfl, (graphInsert_done s _ hgraph).symm⟩, rfl⟩

/- Per-handler lemma bundles: MX. -/

theorem insertMX_newaddrEvs (cfg : Config) (s : DMState) (req : AmassRequest) (r : DNSRec) :
    newaddrEvs (insertMX cfg s req r).2 = [] := by
  unfold insertMX
  dsimp only
  by_cases ht : removeLastDot r.Data = []
  · rw [if_pos ht]
    rfl
  · rw [if_neg ht]
    by_cases hd : SubdomainToDomain cfg.roots (removeLastDot r.Data) = []
    · rw [if_pos hd]
      rfl
    · rw [if_neg hd]
      by_cases htd : removeLastDot r.Data = SubdomainToDomain cfg.roots (removeLastDot r.Data)
      · rw [if_neg (not_not_intro htd)]
        dsimp only
        rw [insertDomain_newaddrEvs]
      · rw [if_pos htd]
        dsimp only
        rw [newaddrEvs_append, insertDomain_newaddrEvs, sendNewName_newaddrEvs]
        rfl

theorem insertMX_outputRecs (cfg : Config) (s : DMState) (req : AmassRequest) (r : DNSRec) :
    outputRecs (insertMX cfg s req r).2 = [] := by
  unfold insertMX
  dsimp only
  by_cases ht : removeLastDot r.Data = []
  · rw [if_pos ht]
    rfl
  · rw [if_neg ht]
    by_cases hd : SubdomainToDomain cfg.roots (removeLastDot r.Data) = []
    · rw [if_pos hd]
      rfl
    · rw [if_neg hd]
      by_cases htd : removeLastDot r.Data = SubdomainToDomain cfg.roots (removeLastDot r.Data)
      · rw [if_neg (not_not_intro htd)]
        dsimp only
        rw [insertDomain_outputRecs]
      · rw [if_pos htd]
        dsimp only
        rw [outputRecs_append, insertDomain_outputRecs, sendNewName_outputRecs]
        rfl

theorem insertMX_ext (cfg : Config) (s : DMState) (req : AmassRequest) (r : DNSRec) :
    Ext s (insertMX cfg s req r).1 := by
  unfold insertMX
  dsimp only
  by_cases ht : removeLastDot r.Data = []
  · rw [if_pos ht]
    exact Ext_refl s
  · rw [if_neg ht]
    by_cases hd : SubdomainToDomain cfg.roots (removeLastDot r.Data) = []
    · rw [if_pos hd]
      exact Ext_refl s
    · rw [if_neg hd]
      by_cases htd : removeLastDot r.Data = SubdomainToDomain cfg.roots (removeLastDot r.Data)
      · rw [if_neg (not_not_intro htd)]
        exact Ext_trans (insertDomain_ext s _) (graphInsert_ext _ _)
      · rw [if_pos htd]
        exact Ext_trans (insertDomain_ext s _)
          (Ext_trans (graphInsert_ext _ _) (sendNewName_ext _ _))

theorem insertMX_Jinv (cfg : Config) {s : DMState} (req : AmassRequest) (r : DNSRec)
    (h : Jinv s) : Jinv (insertMX cfg s req r).1 := by
  unfold insertMX
  dsimp only
  by_cases ht : removeLastDot r.Data = []
  · rw [if_pos ht]
    exact h
  · rw [if_neg ht]
    by_cases hd : SubdomainToDomain cfg.roots (removeLastDot r.Data) = []
    · rw [if_pos hd]
      exact h
    · rw [if_neg hd]
      by_cases htd : removeLastDot r.Data = SubdomainToDomain cfg.roots (removeLastDot r.Data)
      · rw [if_neg (not_not_intro htd)]
        exact Jinv_graphInsert (by simp [isDomainOp]) (Jinv_insertDomain _ h)
      · rw [if_pos htd]
        exact Jinv_sendNewName _
          (Jinv_graphInsert (by simp [isDomainOp]) (Jinv_insertDomain _ h))

theorem insertMX_after (cfg : Config) (s : DMState) (req : AmassRequest) (r : DNSRec) :
    DoneMX cfg req r (insertMX cfg s req r).1 := by
  intro ht hd
  unfold insertMX
  dsimp only
  rw [if_neg ht, if_neg hd]
  by_cases htd : removeLastDot r.Data = SubdomainToDomain cfg.roots (removeLastDot r.Data)
  · rw [if_neg (not_not_intro htd)]
    refine ⟨?_, ?_, ?_⟩
    · exact DoneDomain_mono (graphInsert_ext _ _) _ (insertDomain_after s _)
    · exact graphInsert_mem _ _
    · intro hcontra
      exact absurd htd hcontra
  · rw [if_pos htd]
    refine ⟨?_, ?_, ?_⟩
    · exact DoneDomain_mono
        (Ext_trans (graphInsert_ext _ _) (sendNewName_ext _ _)) _
        (insertDomain_after s _)
    · exact (sendNewName_ext _ _).graph_mono _ (graphInsert_mem _ _)
    · intro _
      exact sendNewName_pair_mem _ _

theorem DoneMX_mono {s t : DMState} (hst : Ext s t) (cfg : Config) (req : AmassRequest)
    (r : DNSRec) (h : DoneMX cfg req r s) : DoneMX cfg req r t := by
  intro ht hd
  obtain ⟨h1, h2, h3⟩ := h ht hd
  exact ⟨DoneDomain_mono hst _ h1, hst.graph_mono _ h2,
    fun hne => hst.dupFilter_mono _ (h3 hne)⟩

theorem insertMX_noop (cfg : Config) (s : DMState) (req : AmassRequest) (r : DNSRec)
    (h : DoneMX cfg req r s) :
    coreEq s (insertMX cfg s req r).1 ∧ (insertMX cfg s req r).2 = [] := by
  unfold insertMX
  dsimp only
  by_cases ht : removeLastDot r.Data = []
  · rw [if_pos ht]
    exact ⟨coreEq_refl s, rfl⟩
  · rw [if_neg ht]
    by_cases hd : SubdomainToDomain cfg.roots (removeLastDot r.Data) = []
    · rw [if_pos hd]
      exact ⟨coreEq_refl s, rfl⟩
    · rw [if_neg hd]
      obtain ⟨hdom, hgraph, hpairc⟩ := h ht hd
      rw [insertDomain_noop s _ hdom]
      dsimp only
      by_cases htd : removeLastDot r.Data = SubdomainToDomain cfg.roots (removeLastDot r.Data)
      · rw [if_neg (not_not_intro htd)]
        exact ⟨⟨rfl, rfl, rfl, (graphInsert_done s _ hgraph).symm⟩, rfl⟩
      · rw [if_pos htd]
        dsimp only
        rw [sendNewName_eq, graphInsert_dupFilter]
        dsimp only
        rw [if_pos (hpairc htd)]
        exact ⟨⟨rfl, rfl, rfl, (graphInsert_done s _ hgraph).symm⟩, rfl⟩

/- Fixed-event projection lemmas. -/

theorem fixedA_newaddrEvs (cfg : Config) (req : AmassRequest) (r : DNSRec) :
    newaddrEvs (fixedA cfg req r) = fixedA cfg req r := by
  unfold fixedA
  by_cases hd : r.Data = []
  · simp [hd, newaddrEvs]
  · by_cases hs : IsDomainInScope cfg.roots req.Name = true <;> simp [hd, hs, newaddrEvs]

theorem fixedA_newnameEvs (cfg : Config) (req : AmassRequest) (r : DNSRec) :
    newnameEvs (fixedA cfg req r) = [] := by
  unfold fixedA
  by_cases hd : r.Data = []
  · simp [hd, newnameEvs]
  · by_cases hs : IsDomainInScope cfg.roots req.Name = true <;> simp [hd, hs, newnameEvs]

theorem fixedA_outputRecs (cfg : Config) (req : AmassRequest) (r : DNSRec) :
    outputRecs (fixedA cfg req r) = [] := by
  unfold fixedA
  by_cases hd : r.Data = []
  · simp [hd, outputRecs]
  · by_cases hs : IsDomainInScope cfg.roots req.Name = true <;> simp [hd, hs, outputRecs]

theorem fixedTXT_newnameEvs (cfg : Config) (req : AmassRequest) (r : DNSRec) :
    newnameEvs (fixedTXT cfg req r) = [] := by
  unfold fixedTXT
  by_cases hs : IsDomainInScope cfg.roots req.Name = true
  · simp only [hs, ite_true]
    exact ipEvents_newnameEvs r.Data
  · simp [hs, newnameEvs]

theorem fixedDispatch_nil (cfg : Config) (req : AmassRequest) (r : DNSRec)
    (h1 : r.Rtype ≠ 1) (h2 : r.Rtype ≠ 28) (h3 : r.Rtype ≠ 16) (h4 : r.Rtype ≠ 99) :
    fixedDispatch cfg req r = [] := by
  unfold fixedDispatch
  rw [if_neg h1, if_neg h2, if_neg h3, if_neg h4]

theorem fixedDispatch_newnameEvs (cfg : Config) (req : AmassRequest) (r : DNSRec) :
    newnameEvs (fixedDispatch cfg req r) = [] := by
  unfold fixedDispatch
  by_cases h1 : r.Rtype = 1
  · rw [if_pos h1]
    exact fixedA_newnameEvs cfg req r
  rw [if_neg h1]
  by_cases h2 : r.Rtype = 28
  · rw [if_pos h2]
    exact fixedA_newnameEvs cfg req r
  rw [if_neg h2]
  by_cases h3 : r.Rtype = 16
  · rw [if_pos h3]
    exact fixedTXT_newnameEvs cfg req r
  rw [if_neg h3]
  by_cases h4 : r.Rtype = 99
  · rw [if_pos h4]
    exact fixedTXT_newnameEvs cfg req r
  rw [if_neg h4]
  rfl

theorem fixedRecords_newnameEvs (cfg : Config) (req : AmassRequest) (rs : List DNSRec) :
    newnameEvs (fixedRecords cfg req rs) = [] := by
  induction rs with
  | nil => rfl
  | cons r rest ih =>
    show newnameEvs (fixedRec cfg req r ++ fixedRecords cfg req rest) = []
    rw [newnameEvs_append, ih]
    rw [show newnameEvs (fixedRec cfg req r) = newnameEvs (fixedDispatch cfg req (lowerRec r)) from rfl]
    rw [fixedDispatch_newnameEvs]
    rfl

/- Dispatch-level lemmas. -/

theorem dispatchRecord_ext (cfg : Config) (s : DMState) (req : AmassRequest) (r : DNSRec) :
    Ext s (dispatchRecord cfg s req r).1 := by
  unfold dispatchRecord
  by_cases h1 : r.Rtype = 1
  · rw [if_pos h1]
    exact insertA_ext cfg s req r
  rw [if_neg h1]
  by_cases h2 : r.Rtype = 28
  · rw [if_pos h2]
    exact insertAAAA_ext cfg s req r
  rw [if_neg h2]
  by_cases h3 : r.Rtype = 5
  · rw [if_pos h3]
    exact insertCNAME_ext cfg s req r
  rw [if_neg h3]
  by_cases h4 : r.Rtype = 12
  · rw [if_pos h4]
    exact insertPTR_ext cfg s req r
  rw [if_neg h4]
  by_cases h5 : r.Rtype = 33
  · rw [if_pos h5]
    exact insertSRV_ext s req r
  rw [if_neg h5]
  by_cases h6 : r.Rtype = 2
  · rw [if_pos h6]
    exact insertNS_ext cfg s req r
  rw [if_neg h6]
  by_cases h7 : r.Rtype = 15
  · rw [if_pos h7]
    exact insertMX_ext cfg s req r
  rw [if_neg h7]
  by_cases h8 : r.Rtype = 16
  · rw [if_pos h8]
    exact insertTXT_ext cfg s req r
  rw [if_neg h8]
  by_cases h9 : r.Rtype = 99
  · rw [if_pos h9]
    rw [insertSPF_eq_insertTXT]
    exact insertTXT_ext cfg s req r
  rw [if_neg h9]
  exact Ext_refl s

theorem dispatchRecord_Jinv (cfg : Config) {s : DMState} (req : AmassRequest) (r : DNSRec)
    (h : Jinv s) : Jinv (dispatchRecord cfg s req r).1 := by
  unfold dispatchRecord
  by_cases h1 : r.Rtype = 1
  · rw [if_pos h1]
    exact insertA_Jinv cfg req r h
  rw [if_neg h1]
  by_cases h2 : r.Rtype = 28
  · rw [if_pos h2]
    exact insertAAAA_Jinv cfg req r h
  rw [if_neg h2]
  by_cases h3 : r.Rtype = 5
  · rw [if_pos h3]
    exact insertCNAME_Jinv cfg req r h
  rw [if_neg h3]
  by_cases h4 : r.Rtype = 12
  · rw [if_pos h4]
    exact insertPTR_Jinv cfg req r h
  rw [if_neg h4]
  by_cases h5 : r.Rtype = 33
  · rw [if_pos h5]
    exact insertSRV_Jinv req r h
  rw [if_neg h5]
  by_cases h6 : r.Rtype = 2
  · rw [if_pos h6]
    exact insertNS_Jinv cfg req r h
  rw [if_neg h6]
  by_cases h7 : r.Rtype = 15
  · rw [if_pos h7]
    exact insertMX_Jinv cfg req r h
  rw [if_neg h7]
  by_cases h8 : r.Rtype = 16
  · rw [if_pos h8]
    exact insertTXT_Jinv cfg req r h
  rw [if_neg h8]
  by_cases h9 : r.Rtype = 99
  · rw [if_pos h9]
    rw [insertSPF_eq_insertTXT]
    exact insertTXT_Jinv cfg req r h
  rw [if_neg h9]
  exact h

theorem dispatchRecord_newaddrEvs (cfg : Config) (s : DMState) (req : AmassRequest) (r : DNSRec) :
    newaddrEvs (dispatchRecord cfg s req r).2 = fixedDispatch cfg req r := by
  unfold dispatchRecord
  by_cases h1 : r.Rtype = 1
  · rw [if_pos h1, insertA_evs, fixedA_newaddrEvs]
    unfold fixedDispatch
    rw [if_pos h1]
  rw [if_neg h1]
  by_cases h2 : r.Rtype = 28
  · rw [if_pos h2, insertAAAA_evs, fixedA_newaddrEvs]
    unfold fixedDispatch
    rw [if_neg h1, if_pos h2]
  rw [if_neg h2]
  by_cases h3 : r.Rtype = 5
  · rw [if_pos h3, insertCNAME_newaddrEvs]
    rw [fixedDispatch_nil cfg req r h1 h2 (by omega) (by omega)]
  rw [if_neg h3]
  by_cases h4 : r.Rtype = 12
  · rw [if_pos h4, insertPTR_newaddrEvs]
    rw [fixedDispatch_nil cfg req r h1 h2 (by omega) (by omega)]
  rw [if_neg h4]
  by_cases h5 : r.Rtype = 33
  · rw [if_pos h5, insertSRV_evs]
    rw [show newaddrEvs [] = [] from rfl]
    rw [fixedDispatch_nil cfg req r h1 h2 (by omega) (by omega)]
  rw [if_neg h5]
  by_cases h6 : r.Rtype = 2
  · rw [if_pos h6, insertNS_newaddrEvs]
    rw [fixedDispatch_nil cfg req r h1 h2 (by omega) (by omega)]
  rw [if_neg h6]
  by_cases h7 : r.Rtype = 15
  · rw [if_pos h7, insertMX_newaddrEvs]
    rw [fixedDispatch_nil cfg req r h1 h2 (by omega) (by omega)]
  rw [if_neg h7]
  by_cases h8 : r.Rtype = 16
  · rw [if_pos h8, insertTXT_newaddrEvs]
    unfold fixedDispatch
    rw [if_neg h1, if_neg h2, if_pos h8]
  rw [if_neg h8]
  by_cases h9 : r.Rtype = 99
  · rw [if_pos h9]
    rw [insertSPF_eq_insertTXT, insertTXT_newaddrEvs]
    unfold fixedDispatch
    rw [if_neg h1, if_neg h2, if_neg h8, if_pos h9]
  rw [if_neg h9]
  rw [show newaddrEvs ((s, ([] : List Event))).2 = [] from rfl]
  rw [fixedDispatch_nil cfg req r h1 h2 h8 h9]

theorem dispatchRecord_outputRecs (cfg : Config) (s : DMState) (req : AmassRequest) (r : DNSRec) :
    outputRecs (dispatchRecord cfg s req r).2 = [] := by
  unfold dispatchRecord
  by_cases h1 : r.Rtype = 1
  · rw [if_pos h1, insertA_evs]
    exact fixedA_outputRecs cfg req r
  rw [if_neg h1]
  by_cases h2 : r.Rtype = 28
  · rw [if_pos h2, insertAAAA_evs]
    exact fixedA_outputRecs cfg req r
  rw [if_neg h2]
  by_cases h3 : r.Rtype = 5
  · rw [if_pos h3]
    exact insertCNAME_outputRecs cfg s req r
  rw [if_neg h3]
  by_cases h4 : r.Rtype = 12
  · rw [if_pos h4]
    exact insertPTR_outputRecs cfg s req r
  rw [if_neg h4]
  by_cases h5 : r.Rtype = 33
  · rw [if_pos h5, insertSRV_evs]
    rfl
  rw [if_neg h5]
  by_cases h6 : r.Rtype = 2
  · rw [if_pos h6]
    exact insertNS_outputRecs cfg s req r
  rw [if_neg h6]
  by_cases h7 : r.Rtype = 15
  · rw [if_pos h7]
    exact insertMX_outputRecs cfg s req r
  rw [if_neg h7]
  by_cases h8 : r.Rtype = 16
  · rw [if_pos h8]
    exact insertTXT_outputRecs cfg s req r
  rw [if_neg h8]
  by_cases h9 : r.Rtype = 99
  · rw [if_pos h9, insertSPF_eq_insertTXT]
    exact insertTXT_outputRecs cfg s req r
  rw [if_neg h9]
  rfl

theorem dispatchRecord_after (cfg : Config) (s : DMState) (req : AmassRequest) (r : DNSRec) :
    DoneDispatch cfg req r (dispatchRecord cfg s req r).1 := by
  unfold dispatchRecord DoneDispatch
  by_cases h1 : r.Rtype = 1
  · rw [if_pos h1, if_pos h1]
    exact insertA_after cfg s req r
  rw [if_neg h1, if_neg h1]
  by_cases h2 : r.Rtype = 28
  · rw [if_pos h2, if_pos h2]
    exact insertAAAA_after cfg s req r
  rw [if_neg h2, if_neg h2]
  by_cases h3 : r.Rtype = 5
  · rw [if_pos h3, if_pos h3]
    exact insertCNAME_after cfg s req r
  rw [if_neg h3, if_neg h3]
  by_cases h4 : r.Rtype = 12
  · rw [if_pos h4, if_pos h4]
    exact insertPTR_after cfg s req r
  rw [if_neg h4, if_neg h4]
  by_cases h5 : r.Rtype = 33
  · rw [if_pos h5, if_pos h5]
    exact insertSRV_after s req r
  rw [if_neg h5, if_neg h5]
  by_cases h6 : r.Rtype = 2
  · rw [if_pos h6, if_pos h6]
    exact insertNS_after cfg s req r
  rw [if_neg h6, if_neg h6]
  by_cases h7 : r.Rtype = 15
  · rw [if_pos h7, if_pos h7]
    exact insertMX_after cfg s req r
  rw [if_neg h7, if_neg h7]
  by_cases h8 : r.Rtype = 16
  · rw [if_pos h8, if_pos h8]
    exact insertTXT_after cfg s req r
  rw [if_neg h8, if_neg h8]
  by_cases h9 : r.Rtype = 99
  · rw [if_pos h9, if_pos h9, insertSPF_eq_insertTXT]
    exact insertTXT_after cfg s req r
  rw [if_neg h9]
  trivial

theorem DoneDispatch_mono {s t : DMState} (hst : Ext s t) (cfg : Config) (req : AmassRequest)
    (r : DNSRec) (h : DoneDispatch cfg req r s) : DoneDispatch cfg req r t := by
  unfold DoneDispatch at h ⊢
  by_cases h1 : r.Rtype = 1
  · rw [if_pos h1] at h ⊢
    exact DoneA_mono hst cfg req r h
  rw [if_neg h1] at h ⊢
  by_cases h2 : r.Rtype = 28
  · rw [if_pos h2] at h ⊢
    exact DoneAAAA_mono hst cfg req r h
  rw [if_neg h2] at h ⊢
  by_cases h3 : r.Rtype = 5
  · rw [if_pos h3] at h ⊢
    exact DoneCNAME_mono hst cfg req r h
  rw [if_neg h3] at h ⊢
  by_cases h4 : r.Rtype = 12
  · rw [if_pos h4] at h ⊢
    exact DonePTR_mono hst cfg req r h
  rw [if_neg h4] at h ⊢
  by_cases h5 : r.Rtype = 33
  · rw [if_pos h5] at h ⊢
    exact DoneSRV_mono hst req r h
  rw [if_neg h5] at h ⊢
  by_cases h6 : r.Rtype = 2
  · rw [if_pos h6] at h ⊢
    exact DoneNS_mono hst cfg req r h
  rw [if_neg h6] at h ⊢
  by_cases h7 : r.Rtype = 15
  · rw [if_pos h7] at h ⊢
    exact DoneMX_mono hst cfg req r h
  rw [if_neg h7] at h ⊢
  by_cases h8 : r.Rtype = 16
  · rw [if_pos h8] at h ⊢
    exact DoneTXT_mono hst cfg req r h
  rw [if_neg h8] at h ⊢
  by_cases h9 : r.Rtype = 99
  · rw [if_pos h9] at h ⊢
    exact DoneTXT_mono hst cfg req r h
  rw [if_neg h9] at h ⊢
  trivial

theorem dispatchRecord_noop (cfg : Config) (s : DMState) (req : AmassRequest) (r : DNSRec)
    (h : DoneDispatch cfg req r s) :
    coreEq s (dispatchRecord cfg s req r).1
    ∧ (dispatchRecord cfg s req r).2 = fixedDispatch cfg req r := by
  unfold DoneDispatch at h
  unfold dispatchRecord
  by_cases h1 : r.Rtype = 1
  · rw [if_pos h1] at h
    rw [if_pos h1]
    refine ⟨insertA_noop cfg s req r h, ?_⟩
    rw [insertA_evs]
    unfold fixedDispatch
    rw [if_pos h1]
  rw [if_neg h1] at h
  rw [if_neg h1]
  by_cases h2 : r.Rtype = 28
  · rw [if_pos h2] at h
    rw [if_pos h2]
    refine ⟨insertAAAA_noop cfg s req r h, ?_⟩
    rw [insertAAAA_evs]
    unfold fixedDispatch
    rw [if_neg h1, if_pos h2]
  rw [if_neg h2] at h
  rw [if_neg h2]
  by_cases h3 : r.Rtype = 5
  · rw [if_pos h3] at h
    rw [if_pos h3]
    obtain ⟨hc, he⟩ := insertCNAME_noop cfg s req r h
    refine ⟨hc, ?_⟩
    rw [he, fixedDispatch_nil cfg req r h1 h2 (by omega) (by omega)]
  rw [if_neg h3] at h
  rw [if_neg h3]
  by_cases h4 : r.Rtype = 12
  · rw [if_pos h4] at h
    rw [if_pos h4]
    obtain ⟨hc, he⟩ := insertPTR_noop cfg s req r h
    refine ⟨hc, ?_⟩
    rw [he, fixedDispatch_nil cfg req r h1 h2 (by omega) (by omega)]
  rw [if_neg h4] at h
  rw [if_neg h4]
  by_cases h5 : r.Rtype = 33
  · rw [if_pos h5] at h
    rw [if_pos h5]
    refine ⟨insertSRV_noop s req r h, ?_⟩
    rw [insertSRV_evs, fixedDispatch_nil cfg req r h1 h2 (by omega) (by omega)]
  rw [if_neg h5] at h
  rw [if_neg h5]
  by_cases h6 : r.Rtype = 2
  · rw [if_pos h6] at h
    rw [if_pos h6]
    obtain ⟨hc, he⟩ := insertNS_noop cfg s req r h
    refine ⟨hc, ?_⟩
    rw [he, fixedDispatch_nil cfg req r h1 h2 (by omega) (by omega)]
  rw [if_neg h6] at h
  rw [if_neg h6]
  by_cases h7 : r.Rtype = 15
  · rw [if_pos h7] at h
    rw [if_pos h7]
    obtain ⟨hc, he⟩ := insertMX_noop cfg s req r h
    refine ⟨hc, ?_⟩
    rw [he, fixedDispatch_nil cfg req r h1 h2 (by omega) (by omega)]
  rw [if_neg h7] at h
  rw [if_neg h7]
  by_cases h8 : r.Rtype = 16
  · rw [if_pos h8] at h
    rw [if_pos h8]
    obtain ⟨hc, he⟩ := insertTXT_noop cfg s req r h
    refine ⟨hc, ?_⟩
    rw [he]
    unfold fixedDispatch
    rw [if_neg h1, if_neg h2, if_pos h8]
  rw [if_neg h8] at h
  rw [if_neg h8]
  by_cases h9 : r.Rtype = 99
  · rw [if_pos h9] at h
    rw [if_pos h9, insertSPF_eq_insertTXT]
    obtain ⟨hc, he⟩ := insertTXT_noop cfg s req r h
    refine ⟨hc, ?_⟩
    rw [he]
    unfold fixedDispatch
    rw [if_neg h1, if_neg h2, if_neg h8, if_pos h9]
  rw [if_neg h9] at h
  rw [if_neg h9]
  exact ⟨coreEq_refl s, (fixedDispatch_nil cfg req r h1 h2 h8 h9).symm⟩

/- Record-loop lemmas. -/

theorem processRecord_ext (cfg : Config) (s : DMState) (req : AmassRequest) (r : DNSRec) :
    Ext s (processRecord cfg s req r).1 :=
  dispatchRecord_ext cfg s req (lowerRec r)

theorem foldRecords_ext (cfg : Config) (req : AmassRequest) (s : DMState) (rs : List DNSRec) :
    Ext s (foldRecords cfg req s rs).1 := by
  induction rs generalizing s with
  | nil => exact Ext_refl s
  | cons r rest ih =>
    exact Ext_trans (processRecord_ext cfg s req r) (ih _)

theorem foldRecords_Jinv (cfg : Config) (req : AmassRequest) {s : DMState} (rs : List DNSRec)
    (h : Jinv s) : Jinv (foldRecords cfg req s rs).1 := by
  induction rs generalizing s with
  | nil => exact h
  | cons r rest ih =>
    exact ih (dispatchRecord_Jinv cfg req (lowerRec r) h)

theorem processRecord_outputRecs (cfg : Config) (s : DMState) (req : AmassRequest) (r : DNSRec) :
    outputRecs (processRecord cfg s req r).2 = [] :=
  dispatchRecord_outputRecs cfg s req (lowerRec r)

theorem processRecord_newaddrEvs (cfg : Config) (s : DMState) (req : AmassRequest) (r : DNSRec) :
    newaddrEvs (processRecord cfg s req r).2 = fixedRec cfg req r :=
  dispatchRecord_newaddrEvs cfg s req (lowerRec r)

theorem foldRecords_outputRecs (cfg : Config) (req : AmassRequest) (s : DMState)
    (rs : List DNSRec) : outputRecs (foldRecords cfg req s rs).2 = [] := by
  induction rs generalizing s with
  | nil => rfl
  | cons r rest ih =>
    show outputRecs ((processRecord cfg s req r).2 ++ _) = []
    rw [outputRecs_append, processRecord_outputRecs, ih]
    rfl

theorem foldRecords_newaddrEvs (cfg : Config) (req : AmassRequest) (s : DMState)
    (rs : List DNSRec) :
    newaddrEvs (foldRecords cfg req s rs).2 = fixedRecords cfg req rs := by
  induction rs generalizing s with
  | nil => rfl
  | cons r rest ih =>
    show newaddrEvs ((processRecord cfg s req r).2 ++ _) = _
    rw [newaddrEvs_append, processRecord_newaddrEvs, ih]
    rfl

theorem foldRecords_after (cfg : Config) (req : AmassRequest) (s : DMState) (rs : List DNSRec) :
    ∀ r ∈ rs, DoneRec cfg req r (foldRecords cfg req s rs).1 := by
  induction rs generalizing s with
  | nil => exact fun r hr => absurd hr (List.not_mem_nil r)
  | cons r0 rest ih =>
    intro r hr
    rcases List.mem_cons.mp hr with hr | hr
    · subst hr
      show DoneDispatch cfg req (lowerRec r) (foldRecords cfg req (processRecord cfg s req r).1 rest).1
      exact DoneDispatch_mono (foldRecords_ext cfg req _ rest) cfg req (lowerRec r)
        (dispatchRecord_after cfg s req (lowerRec r))
    · exact ih _ r hr

theorem foldRecords_noop (cfg : Config) (req : AmassRequest) (s : DMState) (rs : List DNSRec)
    (h : ∀ r ∈ rs, DoneRec cfg req r s) :
    coreEq s (foldRecords cfg req s rs).1
    ∧ (foldRecords cfg req s rs).2 = fixedRecords cfg req rs := by
  induction rs generalizing s with
  | nil => exact ⟨coreEq_refl s, rfl⟩
  | cons r rest ih =>
    have hr : DoneRec cfg req r s := h r (List.mem_cons_self r rest)
    obtain ⟨hc, he⟩ := dispatchRecord_noop cfg s req (lowerRec r) hr
    have hrest : ∀ r' ∈ rest, DoneRec cfg req r' (processRecord cfg s req r).1 := by
      intro r' hr'
      exact DoneDispatch_mono (Ext_of_coreEq hc) cfg req (lowerRec r')
        (h r' (List.mem_cons_of_mem r hr'))
    obtain ⟨hc2, he2⟩ := ih _ hrest
    constructor
    · exact coreEq_trans hc hc2
    · show (processRecord cfg s req r).2 ++ _ = _
      rw [he2]
      rw [show (processRecord cfg s req r).2 = (dispatchRecord cfg s req (lowerRec r)).2 from rfl, he]
      rfl

/- manageData-level lemmas. -/

theorem manageData_eq (cfg : Config) (s : DMState) (req : AmassRequest) :
    manageData cfg s req
      = ((foldRecords cfg (reqLower req) (insertDomain s (lower req.Domain)).1 req.Records).1,
         (insertDomain s (lower req.Domain)).2
           ++ (foldRecords cfg (reqLower req) (insertDomain s (lower req.Domain)).1 req.Records).2) := rfl

theorem manageData_ext (cfg : Config) (s : DMState) (req : AmassRequest) :
    Ext s (manageData cfg s req).1 := by
  rw [manageData_eq]
  exact Ext_trans (insertDomain_ext s _) (foldRecords_ext cfg _ _ _)

theorem manageData_filter (cfg : Config) (s : DMState) (req : AmassRequest) :
    (manageData cfg s req).1.filter = s.filter :=
  (manageData_ext cfg s req).filter_eq

theorem manageData_Jinv (cfg : Config) {s : DMState} (req : AmassRequest)
    (h : Jinv s) : Jinv (manageData cfg s req).1 := by
  rw [manageData_eq]
  exact foldRecords_Jinv cfg _ _ (Jinv_insertDomain _ h)

theorem manageData_outputRecs (cfg : Config) (s : DMState) (req : AmassRequest) :
    outputRecs (manageData cfg s req).2 = [] := by
  rw [manageData_eq]
  show outputRecs (_ ++ _) = []
  rw [outputRecs_append, insertDomain_outputRecs, foldRecords_outputRecs]
  rfl

theorem manageData_newaddrEvs (cfg : Config) (s : DMState) (req : AmassRequest) :
    newaddrEvs (manageData cfg s req).2 = fixedRecords cfg (reqLower req) req.Records := by
  rw [manageData_eq]
  show newaddrEvs (_ ++ _) = _
  rw [newaddrEvs_append, insertDomain_newaddrEvs, foldRecords_newaddrEvs]
  rfl

theorem manageData_after (cfg : Config) (s : DMState) (req : AmassRequest) :
    DoneReq cfg req (manageData cfg s req).1 := by
  rw [manageData_eq]
  constructor
  · exact DoneDomain_mono (foldRecords_ext cfg _ _ _) _ (insertDomain_after s _)
  · exact foldRecords_after cfg _ _ _

theorem manageData_noop (cfg : Config) (s : DMState) (req : AmassRequest)
    (h : DoneReq cfg req s) :
    coreEq s (manageData cfg s req).1
    ∧ (manageData cfg s req).2 = fixedRecords cfg (reqLower req) req.Records := by
  rw [manageData_eq]
  rw [insertDomain_noop s _ h.1]
  dsimp only
  obtain ⟨hc, he⟩ := foldRecords_noop cfg (reqLower req) s req.Records h.2
  exact ⟨hc, by rw [he]; exact List.nil_append _⟩

/-- C2: feeding the same `CHECKED` request twice in succession leaves every
persistent state component (output filter, domain filter,
data-source-duplicate filter, and the graph) exactly as after the first
run; the second run publishes no `NEWNAME` event at all, and its entire
event output is exactly the `NEWADDR` events of the first run — so the
second run publishes nothing beyond the first run's publications (the
`NEWADDR` events are repeated, the `NEWNAME` events are absorbed by the
filters). -/
theorem claim2_manageData_idempotent (cfg : Config) (s : DMState) (req : AmassRequest) :
    (manageData cfg (manageData cfg s req).1 req).1.graph = (manageData cfg s req).1.graph
    ∧ (manageData cfg (manageData cfg s req).1 req).1.filter = (manageData cfg s req).1.filter
    ∧ (manageData cfg (manageData cfg s req).1 req).1.domainFilter
        = (manageData cfg s req).1.domainFilter
    ∧ (manageData cfg (manageData cfg s req).1 req).1.dupFilter
        = (manageData cfg s req).1.dupFilter
    ∧ newnameEvs (manageData cfg (manageData cfg s req).1 req).2 = []
    ∧ (manageData cfg (manageData cfg s req).1 req).2 = newaddrEvs (manageData cfg s req).2 := by
  have hafter := manageData_after cfg s req
  obtain ⟨hc, he⟩ := manageData_noop cfg (manageData cfg s req).1 req hafter
  have haddr := manageData_newaddrEvs cfg s req
  refine ⟨hc.2.2.2.symm, hc.1.symm, hc.2.1.symm, hc.2.2.1.symm, ?_, ?_⟩
  · rw [he]
    exact fixedRecords_newnameEvs cfg (reqLower req) req.Records
  · rw [he, haddr]

/- The output-stage invariant (claim C1). -/

theorem OutInv_grow {cfg : Config} {s t : DMState} {evs : List Event}
    (hf : ∀ x ∈ s.filter, x ∈ t.filter) (h : OutInv cfg s evs) : OutInv cfg t evs :=
  ⟨fun o ho => ⟨hf _ (h.1 o ho).1, (h.1 o ho).2⟩, h.2⟩

theorem sendOutput_inv (cfg : Config) (out : List OutputRec) (s : DMState) (evs : List Event)
    (h : OutInv cfg s evs) :
    OutInv cfg (sendOutput cfg s out).1 (evs ++ (sendOutput cfg s out).2) := by
  induction out generalizing s evs with
  | nil =>
    show OutInv cfg s (evs ++ [])
    simpa using h
  | cons o rest ih =>
    unfold sendOutput
    dsimp only
    by_cases hm : o.Name ∈ s.filter
    · rw [show StringFilterDup s.filter o.Name = (true, s.filter) from by
        simp [StringFilterDup, hm]]
      dsimp only
      simp only [Bool.not_true, Bool.false_and, Bool.false_eq_true, if_false, ite_false]
      exact ih _ _ h
    · rw [show StringFilterDup s.filter o.Name = (false, s.filter ++ [o.Name]) from by
        simp [StringFilterDup, hm]]
      dsimp only
      simp only [Bool.not_false, Bool.true_and]
      by_cases hsc : IsDomainInScope cfg.roots o.Name = true
      · rw [if_pos hsc]
        have hinv : OutInv cfg { s with filter := s.filter ++ [o.Name] }
            (evs ++ [Event.output o]) := by
          constructor
          · intro o' ho'
            rw [outputRecs_append] at ho'
            rcases List.mem_append.mp ho' with ho' | ho'
            · exact ⟨by simp [(h.1 o' ho').1], (h.1 o' ho').2⟩
            · have : o' = o := by simpa [outputRecs] using ho'
              subst this
              exact ⟨by simp, hsc⟩
          · rw [outputRecs_append]
            rw [show outputRecs [Event.output o] = [o] from rfl]
            rw [List.map_append]
            rw [List.nodup_append]
            refine ⟨h.2, by simp, ?_⟩
            intro a ha
            simp only [List.map_singleton, List.mem_singleton]
            intro hb
            rcases List.mem_map.mp ha with ⟨o', ho', rfl⟩
            have := (h.1 o' ho').1
            rw [hb] at this
            exact hm this
        have hres := ih _ _ hinv
        rw [List.append_assoc] at hres
        simpa using hres
      · rw [if_neg hsc]
        exact ih _ _ (OutInv_grow (fun x hx => by simp [hx]) h)

theorem manageData_inv (cfg : Config) (s : DMState) (req : AmassRequest) (evs : List Event)
    (h : OutInv cfg s evs) :
    OutInv cfg (manageData cfg s req).1 (evs ++ (manageData cfg s req).2) := by
  constructor
  · intro o ho
    rw [outputRecs_append, manageData_outputRecs, List.append_nil] at ho
    refine ⟨?_, (h.1 o ho).2⟩
    rw [manageData_filter]
    exact (h.1 o ho).1
  · rw [outputRecs_append, manageData_outputRecs, List.append_nil]
    exact h.2

theorem runSteps_inv (cfg : Config) (steps : List EnumStep) (s : DMState) (evs : List Event)
    (h : OutInv cfg s evs) :
    OutInv cfg (runSteps cfg s steps).1 (evs ++ (runSteps cfg s steps).2) := by
  induction steps generalizing s evs with
  | nil =>
    show OutInv cfg s (evs ++ [])
    simpa using h
  | cons st rest ih =>
    unfold runSteps
    dsimp only
    cases st with
    | checked req =>
      have h1 := manageData_inv cfg s req evs h
      have hres := ih _ _ h1
      rw [List.append_assoc] at hres
      exact hres
    | tick out =>
      have h1 := sendOutput_inv cfg out s evs h
      have hres := ih _ _ h1
      rw [List.append_assoc] at hres
      exact hres

/-- C1: across a whole enumeration (any interleaving of `CHECKED` requests
and output ticks, with `GetNewOutput` free to return the same name any
number of times), every name published on `OUTPUT` is in scope, and no
name is published twice. -/
theorem claim1_output_scope_unique (cfg : Config) (steps : List EnumStep) :
    (∀ o ∈ outputRecs (runSteps cfg initState steps).2,
        IsDomainInScope cfg.roots o.Name = true)
    ∧ ((outputRecs (runSteps cfg initState steps).2).map OutputRec.Name).Nodup := by
  have h0 : OutInv cfg initState [] := by
    constructor
    · intro o ho
      simp [outputRecs] at ho
    · simp [outputRecs]
  have h := runSteps_inv cfg steps initState [] h0
  rw [List.nil_append] at h
  exact ⟨fun o ho => (h.1 o ho).2, h.2⟩

theorem claim1_witness :
    IsDomainInScope ["x.com".data]
        (⟨"a.x.com".data, "x.com".data, "dns".data, "src".data⟩ : OutputRec).Name = true
    ∧ ((outputRecs (runSteps ⟨["x.com".data], fun _ => none⟩ initState
          [EnumStep.tick [⟨"a.x.com".data, "x.com".data, "dns".data, "src".data⟩],
           EnumStep.tick [⟨"a.x.com".data, "x.com".data, "dns".data, "src".data⟩,
                          ⟨"b.y.com".data, "y.com".data, "dns".data, "src".data⟩]]).2).map
        OutputRec.Name).Nodup := by
  have h := claim1_output_scope_unique ⟨["x.com".data], fun _ => none⟩
    [EnumStep.tick [⟨"a.x.com".data, "x.com".data, "dns".data, "src".data⟩],
     EnumStep.tick [⟨"a.x.com".data, "x.com".data, "dns".data, "src".data⟩,
                    ⟨"b.y.com".data, "y.com".data, "dns".data, "src".data⟩]]
  exact ⟨h.1 ⟨"a.x.com".data, "x.com".data, "dns".data, "src".data⟩ (by decide), h.2⟩

/- The C9 invariant across a whole enumeration. -/

theorem sendOutput_calls (cfg : Config) (out : List OutputRec) (s : DMState) :
    (sendOutput cfg s out).1.calls = s.calls := by
  induction out generalizing s with
  | nil => rfl
  | cons o rest ih =>
    unfold sendOutput
    dsimp only
    by_cases hc : (!(StringFilterDup s.filter o.Name).1
        && IsDomainInScope cfg.roots o.Name) = true
    · rw [if_pos hc]
      exact ih _
    · rw [if_neg hc]
      exact ih _

theorem sendOutput_domainFilter (cfg : Config) (out : List OutputRec) (s : DMState) :
    (sendOutput cfg s out).1.domainFilter = s.domainFilter := by
  induction out generalizing s with
  | nil => rfl
  | cons o rest ih =>
    unfold sendOutput
    dsimp only
    by_cases hc : (!(StringFilterDup s.filter o.Name).1
        && IsDomainInScope cfg.roots o.Name) = true
    · rw [if_pos hc]
      exact ih _
    · rw [if_neg hc]
      exact ih _

theorem runSteps_Jinv (cfg : Config) (steps : List EnumStep) {s : DMState}
    (h : Jinv s) : Jinv (runSteps cfg s steps).1 := by
  induction steps generalizing s with
  | nil => exact h
  | cons st rest ih =>
    unfold runSteps
    dsimp only
    cases st with
    | checked req => exact ih (manageData_Jinv cfg req h)
    | tick out =>
      refine ih (Jinv_of_eq (sendOutput_calls cfg out s) (sendOutput_domainFilter cfg out s) h)

theorem Jinv_initState : Jinv initState := by
  intro d t src
  constructor
  · intro hmem
    exact absurd hmem (List.not_mem_nil _)
  · simp [initState]

/-- C9 (amended): across a whole enumeration the handler call
`InsertDomain(D)` is recorded at most once for each exact argument list;
once a domain is in the domain filter every later `insertDomain` call with
it is a complete no-op; and the first insertion publishes the `NEWNAME`
for the domain itself unless the pair `(D, "Forward DNS")` is already in
the data-source-duplicate filter, in which case the first insertion
publishes nothing. -/
theorem claim9_insertDomain_once (cfg : Config) (steps : List EnumStep) (d t src : Str)
    (s : DMState) (D : Str) :
    List.countP (fun op => decide (op = GraphOp.insertDomain d t src))
        (runSteps cfg initState steps).1.calls ≤ 1
    ∧ (lower D ∈ s.domainFilter → insertDomain s D = (s, []))
    ∧ (lower D ∉ s.domainFilter → lower D ≠ [] → (lower D, forwardDNS) ∉ s.dupFilter →
        (insertDomain s D).2 = [Event.newname ⟨lower D, lower D, [], dnsTag, forwardDNS, []⟩]
        ∧ GraphOp.insertDomain (lower D) dnsTag forwardDNS ∈ (insertDomain s D).1.calls) := by
  refine ⟨(runSteps_Jinv cfg steps Jinv_initState d t src).2, ?_, ?_⟩
  · intro h
    exact insertDomain_dup s D h
  · intro hnf hne hnp
    rw [insertDomain_fresh s D hne hnf]
    constructor
    · simp [hnp]
    · simp

theorem claim9_witness :
    List.countP (fun op => decide (op = GraphOp.insertDomain "x.com".data dnsTag forwardDNS))
        (runSteps ⟨["x.com".data], fun _ => none⟩ initState
          [EnumStep.checked ⟨"a.x.com".data, "x.com".data, [], dnsTag, "src".data, []⟩,
           EnumStep.checked ⟨"b.x.com".data, "x.com".data, [], dnsTag, "src".data, []⟩]).1.calls ≤ 1
    ∧ ((insertDomain initState "X.com".data).2
        = [Event.newname ⟨lower "X.com".data, lower "X.com".data, [], dnsTag, forwardDNS, []⟩]
      ∧ GraphOp.insertDomain (lower "X.com".data) dnsTag forwardDNS
          ∈ (insertDomain initState "X.com".data).1.calls) := by
  have h := claim9_insertDomain_once ⟨["x.com".data], fun _ => none⟩
    [EnumStep.checked ⟨"a.x.com".data, "x.com".data, [], dnsTag, "src".data, []⟩,
     EnumStep.checked ⟨"b.x.com".data, "x.com".data, [], dnsTag, "src".data, []⟩]
    "x.com".data dnsTag forwardDNS initState "X.com".data
  exact ⟨h.1, h.2.2 (by decide) (by decide) (by decide)⟩

/-- C9 counterexample: a TXT record can seed the data-source-duplicate
filter with `(example.com, "Forward DNS")` before any domain insertion;
the later first `InsertDomain(example.com)` handler call then publishes no
`NEWNAME` at all, against the claim that the first insertion always
publishes one. -/
theorem claim9_counterexample :
    (manageData ⟨["example.com".data], fun _ => none⟩
        (manageData ⟨["example.com".data], fun _ => none⟩ initState
          ⟨"a.example.com".data, [], [], dnsTag, "s1".data,
            [⟨"a.example.com".data, 16, "example.com".data⟩]⟩).1
        ⟨"example.com".data, "example.com".data, [], dnsTag, "s2".data, []⟩).2 = []
    ∧ GraphOp.insertDomain "example.com".data dnsTag forwardDNS
        ∈ (manageData ⟨["example.com".data], fun _ => none⟩
            (manageData ⟨["example.com".data], fun _ => none⟩ initState
              ⟨"a.example.com".data, [], [], dnsTag, "s1".data,
                [⟨"a.example.com".data, 16, "example.com".data⟩]⟩).1
            ⟨"example.com".data, "example.com".data, [], dnsTag, "s2".data, []⟩).1.calls
    ∧ GraphOp.insertDomain "example.com".data dnsTag forwardDNS
        ∉ (manageData ⟨["example.com".data], fun _ => none⟩ initState
            ⟨"a.example.com".data, [], [], dnsTag, "s1".data,
              [⟨"a.example.com".data, 16, "example.com".data⟩]⟩).1.calls := by
  refine ⟨by decide, by decide, by decide⟩

end AmassDM
